import Mathlib

/-!
# koko_controllers : InverseDynamicsController

A shallow embedding of `InverseDynamicsController.cpp` (command normaliser,
PD + feedforward evaluator, per-joint clamp, paired-joint budget allocator and
the parameter checks of `init`), followed by the properties proved about it.

Numbers.  A C++ `double` is modelled by `Double`: an exact rational, or one of
the three non-finite values `+inf`, `-inf`, `NaN`.  Arithmetic on finite values
is exact (no rounding, no overflow); the non-finite values follow the IEEE-754
rules the source relies on (`NaN` compares false with everything, `0 * inf`,
`inf - inf` and `0 / 0` are `NaN`, `x / 0` is an infinity).  Signed zeros are
not distinguished: a zero divisor is taken to be `+0`.

Rounding.  The doubles of the source round every result to binary64, which
`Double` does not model.  The general properties below are stated so that
rounding does not matter: they are symbolic in the operations of `Double`, or
compare values, or leave a margin far above one rounding.  `IsNearestBinary64`
states what a rounded operation returns; it is used to show, on concrete
inputs, which exact identities the doubles do not satisfy.
-/

namespace koko_controllers

/-! ## Doubles -/

/-- A `double`: a finite value (an exact rational) or `+inf`, `-inf`, `NaN`. -/
inductive Double where
  | fin (q : ℚ)
  | pinf
  | ninf
  | nan
deriving DecidableEq

namespace Double

instance instOfNat (n : Nat) : OfNat Double n := ⟨fin n⟩

/-- The test `std::isnan`. -/
def isnan : Double → Bool
  | nan => true
  | _ => false

/-- The test `std::isinf`. -/
def isinf : Double → Bool
  | pinf => true
  | ninf => true
  | _ => false

/-- Unary minus. -/
def neg : Double → Double
  | fin a => fin (-a)
  | pinf => ninf
  | ninf => pinf
  | nan => nan

/-- Addition: exact on finite values, `inf + -inf = NaN`. -/
def add : Double → Double → Double
  | fin a, fin b => fin (a + b)
  | fin _, pinf => pinf
  | fin _, ninf => ninf
  | pinf, fin _ => pinf
  | pinf, pinf => pinf
  | ninf, fin _ => ninf
  | ninf, ninf => ninf
  | _, _ => nan

/-- The infinity of the given sign: `-inf` when `negative` is set, else `+inf`. -/
def infOfSign (negative : Bool) : Double :=
  if negative then ninf else pinf

/-- Multiplication: exact on finite values, `0 * inf = NaN`. -/
def mul : Double → Double → Double
  | fin a, fin b => fin (a * b)
  | fin a, pinf => if a = 0 then nan else infOfSign (decide (a < 0))
  | fin a, ninf => if a = 0 then nan else infOfSign (decide (0 < a))
  | pinf, fin b => if b = 0 then nan else infOfSign (decide (b < 0))
  | ninf, fin b => if b = 0 then nan else infOfSign (decide (0 < b))
  | pinf, pinf => pinf
  | pinf, ninf => ninf
  | ninf, pinf => ninf
  | ninf, ninf => pinf
  | _, _ => nan

/-- Division: exact on finite values with a non-zero divisor; `0 / 0` and
`inf / inf` are `NaN`, `x / 0` is the infinity of the sign of `x`, and a
finite value over an infinity is `0`. -/
def div : Double → Double → Double
  | fin a, fin b =>
      if b = 0 then (if a = 0 then nan else infOfSign (decide (a < 0)))
      else fin (a / b)
  | fin _, pinf => fin 0
  | fin _, ninf => fin 0
  | pinf, fin b => infOfSign (decide (b < 0))
  | ninf, fin b => infOfSign (decide (0 ≤ b))
  | _, _ => nan

instance instNeg : Neg Double := ⟨neg⟩
instance instAdd : Add Double := ⟨add⟩
instance instSub : Sub Double := ⟨fun a b => add a (neg b)⟩
instance instMul : Mul Double := ⟨mul⟩
instance instDiv : Div Double := ⟨div⟩

/-- The comparison `a < b`; false as soon as one side is `NaN`. -/
def lt : Double → Double → Prop
  | fin a, fin b => a < b
  | fin _, pinf => True
  | ninf, fin _ => True
  | ninf, pinf => True
  | _, _ => False

/-- The comparison `a <= b`; false as soon as one side is `NaN`. -/
def le : Double → Double → Prop
  | fin a, fin b => a ≤ b
  | fin _, pinf => True
  | ninf, fin _ => True
  | ninf, pinf => True
  | pinf, pinf => True
  | ninf, ninf => True
  | _, _ => False

instance instLT : LT Double := ⟨lt⟩
instance instLE : LE Double := ⟨le⟩

instance decLt (a b : Double) : Decidable (a < b) := by
  cases a <;> cases b <;> simp only [LT.lt, lt] <;> infer_instance

instance decLe (a b : Double) : Decidable (a ≤ b) := by
  cases a <;> cases b <;> simp only [LE.le, le] <;> infer_instance

/-- Truncation of a rational toward zero. -/
def trunc (q : ℚ) : ℤ :=
  if 0 ≤ q then ⌊q⌋ else ⌈q⌉

/-- The C function `fmod(x, y)`: `x - n * y` where `n` is `x / y` truncated
toward zero; `NaN` for an infinite `x` or a zero `y`, and `x` itself for a
finite `x` and an infinite `y`. -/
def fmod : Double → Double → Double
  | fin x, fin y => if y = 0 then nan else fin (x - (trunc (x / y) : ℚ) * y)
  | fin x, pinf => fin x
  | fin x, ninf => fin x
  | _, _ => nan

/-- The function `std::max(a, b)`, which is `(a < b) ? b : a`. -/
def stdMax (a b : Double) : Double :=
  if a < b then b else a

/-- The function `std::min(a, b)`, which is `(b < a) ? b : a`. -/
def stdMin (a b : Double) : Double :=
  if b < a then b else a

end Double

open Double

/-! ## Binary64 rounding -/

/-- The finite values of the binary64 format of a `double`: `m * 2 ^ e` with
`|m| < 2 ^ 53` and `-1074 ≤ e ≤ 971`. -/
def IsBinary64 (q : ℚ) : Prop :=
  ∃ m e : ℤ, |m| < 2 ^ 53 ∧ -1074 ≤ e ∧ e ≤ 971 ∧ q = m * (2 : ℚ) ^ e

/-- The value `s` is a binary64 value nearest to the rational `q`: what a double
operation whose exact result is `q` returns under round-to-nearest, whatever
the tie rule, when `q` is within the finite range. -/
def IsNearestBinary64 (q s : ℚ) : Prop :=
  IsBinary64 s ∧ ∀ t : ℚ, IsBinary64 t → |q - s| ≤ |q - t|

/-! ## Data model -/

/-- A `ros::Duration`: whole seconds and nanoseconds. -/
structure Duration where
  sec : Int
  nsec : Int
deriving DecidableEq

/-- The value `ros::Duration(0.0)`. -/
def Duration.zero : Duration := ⟨0, 0⟩

/-- The effort joint handle: the measured state read by `getPosition` and
`getVelocity`, and the effort written by `setCommand`. -/
structure JointHandle where
  position : Double
  velocity : Double
  command : Double
deriving DecidableEq

/-- Modelled from the spec: the record `JointPD` is declared in the header
`InverseDynamicsController.h`, which is not among the sources.  Its fields are
those the controller source reads and writes: the joint handle, the static
limits, the gains and the commanded position `cmd` of the spec's Joint. -/
structure JointPD where
  joint : JointHandle
  max_torque : Double
  min_torque : Double
  max_angle : Double
  min_angle : Double
  p_gain : Double
  d_gain : Double
  id_gain : Double
  cmd : Double
deriving DecidableEq

/-- Modelled from the spec: the class `InverseDynamicsController` is declared in
the header `InverseDynamicsController.h`, which is not among the sources.  These
are the members that `setCommand`, `update` and `computeCommand` use: the joint
records, the flat list of pair indices, the zero-gravity flag and the
compensation torques `id_torques`, one per joint. -/
structure InverseDynamicsController where
  joint_vector : List JointPD
  paired_constraints : List Int
  zero_g_mode : Bool
  id_torques : List Double

/-- Indexing a vector with a C++ `int`: `none` stands for an access outside the
vector (undefined behaviour in the source). -/
def at? {α : Type} (v : List α) (i : Int) : Option α :=
  if i < 0 then none else v[i.toNat]?

/-! ## computeCommand -/

/-- The method `computeCommand(error, dt, index, vel)`. -/
def computeCommand (c : InverseDynamicsController) (error : Double) (dt : Duration)
    (index : Int) (vel : Double) : Option Double :=
  if dt = Duration.zero ∨ error.isnan = true ∨ error.isinf = true then
    some 0
  else
    match at? c.joint_vector index, at? c.id_torques index with
    | some j, some id_torque =>
        let p_term := j.p_gain * error
        let d_term := j.d_gain * -vel
        if c.zero_g_mode then
          some (id_torque * j.id_gain)
        else
          some ((p_term + d_term) + id_torque * j.id_gain)
    | _, _ => none

/-! ## setCommand -/

/-- The wrap-around lines of `setCommand`: shift by `3.14159265359`, reduce with
`fmod` by `6.28318530718`, re-add the modulus to a negative remainder, and shift
back by `3.1415926535` (the constants are the decimal literals of the source). -/
def wrapAngle (x : Double) : Double :=
  let c1 := fmod (x + fin 3.14159265359) (fin 6.28318530718)
  let c2 := if c1 < 0 then c1 + fin 6.28318530718 else c1
  c2 - fin 3.1415926535

/-- The loop of `setCommand` over the message data: entry `i` is wrapped, clamped
to the angle limits of joint `i` and stored in its `cmd`.  A message longer
than `joint_vector` indexes past its end (`none`). -/
def setCommandLoop : List JointPD → List Double → Option (List JointPD)
  | jv, [] => some jv
  | [], _ :: _ => none
  | j :: jv, x :: xs =>
      match setCommandLoop jv xs with
      | none => none
      | some rest =>
          some ({ j with cmd := stdMin (stdMax (wrapAngle x) j.min_angle) j.max_angle } :: rest)

/-- The callback `setCommand(pos_commands)`. -/
def setCommand (c : InverseDynamicsController) (commands : List Double) :
    Option InverseDynamicsController :=
  match setCommandLoop c.joint_vector commands with
  | none => none
  | some jv => some { c with joint_vector := jv }

/-! ## update -/

/-- The value `computeCommand(error, period, i, current_velocity)` that the first
loop of `update` computes for joint `i`; `sad` is the library function
`angles::shortest_angular_distance`. -/
def rawCommand (c : InverseDynamicsController) (sad : Double → Double → Double)
    (period : Duration) (i : Nat) : Option Double :=
  match c.joint_vector[i]? with
  | none => none
  | some j =>
      let current_position := j.joint.position
      let current_velocity := j.joint.velocity
      let error := sad current_position j.cmd
      computeCommand c error period i current_velocity

/-- The body of the first loop of `update`: the value stored in `commands[i]`.
Joints found in `paired_constraints` keep the raw effort, the others are
clamped to their torque limits. -/
def commandedEffort (c : InverseDynamicsController) (sad : Double → Double → Double)
    (period : Duration) (i : Nat) : Option Double :=
  match c.joint_vector[i]?, rawCommand c sad period i with
  | some j, some commanded_effort =>
      if (i : Int) ∉ c.paired_constraints then
        some (stdMin (stdMax commanded_effort j.min_torque) j.max_torque)
      else
        some commanded_effort
  | _, _ => none

/-- The first loop of `update`, over the joint indices `is`. -/
def commandsLoop (c : InverseDynamicsController) (sad : Double → Double → Double)
    (period : Duration) : List Nat → Option (List Double)
  | [] => some []
  | i :: is =>
      match commandedEffort c sad period i, commandsLoop c sad period is with
      | some x, some xs => some (x :: xs)
      | _, _ => none

/-- The scalar chosen by the four quadrant branches of the pair loop. -/
def scalar (lift roll max_effort : Double) : Double :=
  if lift ≥ 0 ∧ roll ≥ 0 ∧ (lift + roll) > max_effort then
    max_effort / (lift + roll)
  else if lift < 0 ∧ roll ≥ 0 ∧ (roll - lift) > max_effort then
    max_effort / (roll - lift)
  else if lift < 0 ∧ roll < 0 ∧ (-roll - lift) > max_effort then
    max_effort / (-roll - lift)
  else if lift ≥ 0 ∧ roll < 0 ∧ (lift - roll) > max_effort then
    max_effort / (lift - roll)
  else
    1

/-- The divisor of the rescaling branch the pair loop takes, `none` when no
branch is taken (same conditions as `scalar`). -/
def scalarDivisor (lift roll max_effort : Double) : Option Double :=
  if lift ≥ 0 ∧ roll ≥ 0 ∧ (lift + roll) > max_effort then
    some (lift + roll)
  else if lift < 0 ∧ roll ≥ 0 ∧ (roll - lift) > max_effort then
    some (roll - lift)
  else if lift < 0 ∧ roll < 0 ∧ (-roll - lift) > max_effort then
    some (-roll - lift)
  else if lift ≥ 0 ∧ roll < 0 ∧ (lift - roll) > max_effort then
    some (lift - roll)
  else
    none

/-- The second loop of `update`, over `paired_constraints` two entries at a
time.  Reading `paired_constraints[i+1]` past the end of an odd-length list, or
indexing `commands` or `joint_vector` outside their range, gives `none`. -/
def pairLoop (jv : List JointPD) : List Int → List Double → Option (List Double)
  | [], commands => some commands
  | [_], _ => none
  | lift_index :: roll_index :: rest, commands =>
      match at? commands lift_index, at? commands roll_index,
          at? jv lift_index, at? jv roll_index with
      | some lift, some roll, some jl, some jr =>
          let max_effort := jl.max_torque + jr.max_torque
          let s := scalar lift roll max_effort
          let commands1 := commands.set lift_index.toNat (lift * s)
          match at? commands1 roll_index with
          | some roll1 => pairLoop jv rest (commands1.set roll_index.toNat (roll1 * s))
          | none => none
      | _, _, _, _ => none

/-- The commands vector at the end of `update`, before it is handed to the
joints. -/
def updateCommands (c : InverseDynamicsController) (sad : Double → Double → Double)
    (period : Duration) : Option (List Double) :=
  match commandsLoop c sad period (List.range c.joint_vector.length) with
  | none => none
  | some commands => pairLoop c.joint_vector c.paired_constraints commands

/-- The method `update(time, period)`: every joint handle receives its entry of
the commands vector (the telemetry messages are not modelled). -/
def update (c : InverseDynamicsController) (sad : Double → Double → Double)
    (period : Duration) : Option InverseDynamicsController :=
  match updateCommands c sad period with
  | none => none
  | some commands =>
      some { c with
        joint_vector := List.zipWith
          (fun j x => { j with joint := { j.joint with command := x } })
          c.joint_vector commands }

/-- The effort that joint `i` received through `joint.setCommand`. -/
def sentCommand (c : InverseDynamicsController) (i : Int) : Option Double :=
  (at? c.joint_vector i).map (fun j => j.joint.command)

/-! ## init -/

/-- The per-joint parameters `init` looks up with `getParam` (`none`: the
parameter is absent), and the handle `getHandle` returns for the joint. -/
structure JointParams where
  joint : JointHandle
  p : Option Double
  d : Option Double
  id : Option Double
  max_torque : Option Double
  min_torque : Option Double
  min_angle : Option Double
  max_angle : Option Double

/-- What `init` reads from its environment: whether the robot description
parses into a tree, the controller parameters, whether the chain from
`base_link` to the end link exists, and the movable joints of that chain in
order. -/
structure InitInput where
  treeFromString : Bool
  zero_g_mode : Option Bool
  paired_constraints : Option (List Int)
  getChain : Bool
  joints : List JointParams
  root_name : Option String

/-- The joint loop of `init`: `none` as soon as one parameter of a joint is
missing (the `return false` statements).  The field `cmd` is first written by
`starting`; it is given the value `0` here. -/
def initJoints : List JointParams → Option (List JointPD)
  | [] => some []
  | jp :: rest =>
      match jp.p, jp.d, jp.id, jp.max_torque, jp.min_torque, jp.min_angle, jp.max_angle with
      | some p_gain, some d_gain, some id_gain, some max_torque, some min_torque,
          some min_angle, some max_angle =>
          match initJoints rest with
          | none => none
          | some jv =>
              some ({ joint := jp.joint, max_torque := max_torque, min_torque := min_torque,
                      max_angle := max_angle, min_angle := min_angle, p_gain := p_gain,
                      d_gain := d_gain, id_gain := id_gain, cmd := 0 } :: jv)
      | _, _, _, _, _, _, _ => none

/-- The method `init`: `none` is `return false`, `some c` is `return true` with
the controller state `c`.  A missing `zero_g_mode` or `paired_constraints` and
an odd-length `paired_constraints` are only reported with `ROS_ERROR`: a missing
`paired_constraints` leaves the vector empty, and a missing `zero_g_mode`
leaves the member unset (taken to be `false` here). -/
def init (i : InitInput) : Option InverseDynamicsController :=
  if ¬ i.treeFromString then none
  else
    let zero_g_mode := i.zero_g_mode.getD false
    let paired_constraints := i.paired_constraints.getD []
    -- if (paired_constraints.size() % 2 != 0) ROS_ERROR(...) : no return
    if ¬ i.getChain then none
    else
      match initJoints i.joints with
      | none => none
      | some joint_vector =>
          match i.root_name with
          | none => none
          | some _ =>
              some { joint_vector := joint_vector,
                     paired_constraints := paired_constraints,
                     zero_g_mode := zero_g_mode,
                     id_torques := List.replicate joint_vector.length 0 }


/-! ## Well-formed configurations -/

/-- A configuration on which `update` has defined behaviour: the pair list has
even length, its entries index `joint_vector`, and `id_torques` has one entry
per joint. -/
def WellFormed (c : InverseDynamicsController) : Prop :=
  Even c.paired_constraints.length ∧
  (∀ p ∈ c.paired_constraints, 0 ≤ p ∧ p < (c.joint_vector.length : Int)) ∧
  c.id_torques.length = c.joint_vector.length

instance decWellFormed (c : InverseDynamicsController) : Decidable (WellFormed c) := by
  unfold WellFormed
  infer_instance

/-- The pair `(l, r)` is declared in `paired_constraints` (at an even position)
and neither of its two distinct joints occurs anywhere else in the list. -/
def SolePair (c : InverseDynamicsController) (pre post : List Int) (l r : Int) : Prop :=
  c.paired_constraints = pre ++ l :: r :: post ∧ Even pre.length ∧ l ≠ r ∧
  l ∉ pre ∧ r ∉ pre ∧ l ∉ post ∧ r ∉ post

instance decSolePair (c : InverseDynamicsController) (pre post : List Int) (l r : Int) :
    Decidable (SolePair c pre post l r) := by
  unfold SolePair
  infer_instance

/-! ## Concrete configurations -/

/-- A joint with torque limits `[lo, hi]`, unit compensation gain, and the gains
`p = 2`, `d = 0.1` of the end-to-end scenario. -/
def exampleJoint (lo hi : Double) : JointPD :=
  { joint := { position := 0, velocity := 0, command := 0 },
    max_torque := hi, min_torque := lo, max_angle := 3, min_angle := -3,
    p_gain := 2, d_gain := fin 0.1, id_gain := 1, cmd := 0 }

/-- The joint `exampleJoint lo hi` with a handle that reports the velocity `v`. -/
def exampleJointV (lo hi v : Double) : JointPD :=
  { exampleJoint lo hi with joint := { position := 0, velocity := v, command := 0 } }

/-- Three joints with torque limits `[-4, 4]` in zero-gravity mode with
compensation torques `12, 4, 62` (which are then the raw commands), and the
overlapping pairs `(0, 1)`, `(1, 2)`.  Every sum, quotient and product of the
pair loop on this input is a dyadic number that a double holds exactly. -/
def overlapController : InverseDynamicsController :=
  { joint_vector := [exampleJoint (-4) 4, exampleJoint (-4) 4, exampleJoint (-4) 4],
    paired_constraints := [0, 1, 1, 2],
    zero_g_mode := true,
    id_torques := [12, 4, 62] }

/-- Two joints with torque limits `[-5, 5]` declared as one pair, zero-gravity
mode off, compensation torques `0` and `1`; joint `0` reports the velocity
`-inf`, so that its raw command is `d_gain * -(-inf) = +inf`. -/
def infiniteVelocityController : InverseDynamicsController :=
  { joint_vector := [exampleJointV (-5) 5 ninf, exampleJoint (-5) 5],
    paired_constraints := [0, 1],
    zero_g_mode := false,
    id_torques := [0, 1] }

/-- One unpaired joint with torque limits `[-5, 5]` that reports the velocity
`NaN`, zero-gravity mode off, compensation torque `0.2`. -/
def nanVelocityController : InverseDynamicsController :=
  { joint_vector := [exampleJointV (-5) 5 nan],
    paired_constraints := [],
    zero_g_mode := false,
    id_torques := [fin 0.2] }

/-- The library function `shortest_angular_distance` on the sample states used
below, which all have measured position and commanded position `0`. -/
def zeroSad : Double → Double → Double := fun _ _ => 0

/-- A period of one second. -/
def oneSecond : Duration := ⟨1, 0⟩

/-- Two joints with torque limits `[-5, 5]` declared as one pair, in
zero-gravity mode with compensation torques `t0` and `t1` (which are then the
raw commands). -/
def pairController (t0 t1 : Double) : InverseDynamicsController :=
  { joint_vector := [exampleJoint (-5) 5, exampleJoint (-5) 5],
    paired_constraints := [0, 1],
    zero_g_mode := true,
    id_torques := [t0, t1] }

/-- One unpaired joint with torque limits `[-5, 5]`, in zero-gravity mode with
compensation torque `t` (which is then the raw command). -/
def singleController (t : Double) : InverseDynamicsController :=
  { joint_vector := [exampleJoint (-5) 5],
    paired_constraints := [],
    zero_g_mode := true,
    id_torques := [t] }

/-- The end-to-end scenario: one unpaired joint, `p = 2`, `d = 0.1`, unit
compensation gain, compensation torque `0.2`, zero-gravity mode off. -/
def scenarioController : InverseDynamicsController :=
  { joint_vector := [exampleJoint (-5) 5],
    paired_constraints := [],
    zero_g_mode := false,
    id_torques := [fin 0.2] }

/-- Two joints with `max_torque = -1` (and `min_torque = -5`) declared as one
pair, whose budget is `-2`; the raw commands are both `0`. -/
def negativeBudgetController : InverseDynamicsController :=
  { joint_vector := [exampleJoint (-5) (-1), exampleJoint (-5) (-1)],
    paired_constraints := [0, 1],
    zero_g_mode := true,
    id_torques := [0, 0] }

/-- An environment in which every lookup of `init` succeeds, with one joint and
the odd-length pair list `[0]`. -/
def oddPairInput : InitInput :=
  { treeFromString := true,
    zero_g_mode := some true,
    paired_constraints := some [0],
    getChain := true,
    joints := [{ joint := { position := 0, velocity := 0, command := 0 },
                 p := some 2, d := some (fin 0.1), id := some 1,
                 max_torque := some 5, min_torque := some (-5),
                 min_angle := some (-3), max_angle := some 3 }],
    root_name := some "koko" }

/-! # Properties -/

/-! ## Arithmetic of doubles on constructors -/

namespace Double

theorem lt_def (a b : Double) : a < b ↔ Double.lt a b := Iff.rfl
theorem le_def (a b : Double) : a ≤ b ↔ Double.le a b := Iff.rfl
theorem add_def (a b : Double) : a + b = Double.add a b := rfl
theorem mul_def (a b : Double) : a * b = Double.mul a b := rfl
theorem div_def (a b : Double) : a / b = Double.div a b := rfl
theorem neg_def (a : Double) : -a = Double.neg a := rfl
theorem ofNat_def (n : Nat) [n.AtLeastTwo] : (OfNat.ofNat n : Double) = fin (OfNat.ofNat n) := by
  show fin ((OfNat.ofNat n : ℕ) : ℚ) = _
  rfl
theorem zero_def : (0 : Double) = fin 0 := by
  show fin ((0 : ℕ) : ℚ) = _
  simp
theorem one_def : (1 : Double) = fin 1 := by
  show fin ((1 : ℕ) : ℚ) = _
  simp

@[simp] theorem fin_lt_fin (a b : ℚ) : fin a < fin b ↔ a < b := Iff.rfl
@[simp] theorem fin_le_fin (a b : ℚ) : fin a ≤ fin b ↔ a ≤ b := Iff.rfl
@[simp] theorem fin_add_fin (a b : ℚ) : fin a + fin b = fin (a + b) := rfl
@[simp] theorem fin_sub_fin (a b : ℚ) : fin a - fin b = fin (a - b) := by
  show fin (a + -b) = _
  rw [sub_eq_add_neg]
@[simp] theorem fin_mul_fin (a b : ℚ) : fin a * fin b = fin (a * b) := rfl
@[simp] theorem neg_fin (a : ℚ) : -fin a = fin (-a) := rfl
theorem fin_div_fin (a b : ℚ) (h : b ≠ 0) : fin a / fin b = fin (a / b) := by
  show Double.div (fin a) (fin b) = _
  simp [Double.div, h]

end Double

/-! ## Clamping -/

theorem le_stdMax (x lo : Double) (hx : x.isnan = false) (hlo : lo.isnan = false) :
    lo ≤ stdMax x lo ∧ (stdMax x lo).isnan = false := by
  cases x <;> cases lo <;>
    simp only [stdMax, Double.lt_def, Double.le_def, Double.lt, Double.le, isnan,
      if_true, if_false, and_self] at * <;>
    first
      | trivial
      | exact le_refl _
      | (split_ifs with h <;> simp only [Double.le, isnan, and_true] <;>
          first | exact le_refl _ | exact le_of_not_lt h)

theorem stdMin_bounds (y lo hi : Double) (hy : lo ≤ y) (h : lo ≤ hi) :
    lo ≤ stdMin y hi ∧ stdMin y hi ≤ hi := by
  cases y <;> cases lo <;> cases hi <;>
    simp only [stdMin, Double.lt_def, Double.le_def, Double.lt, Double.le,
      if_true, if_false, and_self] at * <;>
    first
      | trivial
      | exact ⟨hy, le_refl _⟩
      | (split_ifs with h1 <;> simp only [Double.le, and_true, true_and] <;>
          first | trivial | exact ⟨h, le_refl _⟩ | exact ⟨hy, le_of_not_lt h1⟩ | assumption
                | exact le_refl _ | exact le_of_not_lt h1)

theorem isnan_false_of_le (a b : Double) (h : a ≤ b) : a.isnan = false ∧ b.isnan = false := by
  cases a <;> cases b <;> simp only [Double.le_def, Double.le, isnan, and_self] at *

/-- The value of `std::min(std::max(x, lo), hi)` lies in `[lo, hi]` when
`lo <= hi` and `x` is not `NaN`. -/
theorem clamp_bounds (x lo hi : Double) (hx : x.isnan = false) (h : lo ≤ hi) :
    lo ≤ stdMin (stdMax x lo) hi ∧ stdMin (stdMax x lo) hi ≤ hi :=
  stdMin_bounds _ lo hi (le_stdMax x lo hx (isnan_false_of_le lo hi h).1).1 h
/-! ## The scalar of a pair, on finite values -/

/-- On finite commands and a non-negative finite budget, the four quadrant
branches compute `budget / (|lift| + |roll|)` when the combined effort exceeds
the budget and `1` otherwise. -/
theorem scalar_fin (a b B : ℚ) (hB : 0 ≤ B) :
    scalar (fin a) (fin b) (fin B)
      = fin (if B < |a| + |b| then B / (|a| + |b|) else 1) := by
  unfold scalar
  simp only [ge_iff_le, gt_iff_lt, Double.zero_def, Double.one_def, Double.fin_le_fin,
    Double.fin_lt_fin, Double.fin_add_fin, Double.fin_sub_fin, Double.neg_fin]
  rcases le_or_lt 0 a with ha | ha <;> rcases le_or_lt 0 b with hb | hb
  · rw [abs_of_nonneg ha, abs_of_nonneg hb]
    by_cases h : B < a + b
    · rw [if_pos ⟨ha, hb, h⟩, if_pos h, Double.fin_div_fin _ _ (by linarith)]
    · rw [if_neg (fun hh => h hh.2.2), if_neg (fun hh => absurd hh.1 (not_lt.mpr ha)),
        if_neg (fun hh => absurd hh.1 (not_lt.mpr ha)),
        if_neg (fun hh => absurd hh.2.1 (not_lt.mpr hb)), if_neg h]
  · rw [abs_of_nonneg ha, abs_of_neg hb]
    by_cases h : B < a + -b
    · have h2 : B < a - b := by linarith
      rw [if_neg (fun hh => absurd hh.2.1 (not_le.mpr hb)),
        if_neg (fun hh => absurd hh.1 (not_lt.mpr ha)),
        if_neg (fun hh => absurd hh.1 (not_lt.mpr ha)),
        if_pos ⟨ha, hb, h2⟩, if_pos h, Double.fin_div_fin _ _ (by linarith)]
      rw [sub_eq_add_neg]
    · have h2 : ¬ B < a - b := by intro hh; apply h; linarith
      rw [if_neg (fun hh => absurd hh.2.1 (not_le.mpr hb)),
        if_neg (fun hh => absurd hh.1 (not_lt.mpr ha)),
        if_neg (fun hh => absurd hh.1 (not_lt.mpr ha)),
        if_neg (fun hh => h2 hh.2.2), if_neg h]
  · rw [abs_of_neg ha, abs_of_nonneg hb]
    by_cases h : B < -a + b
    · have h2 : B < b - a := by linarith
      rw [if_neg (fun hh => absurd hh.1 (not_le.mpr ha)),
        if_pos ⟨ha, hb, h2⟩, if_pos h, Double.fin_div_fin _ _ (by linarith)]
      rw [sub_eq_add_neg, add_comm]
    · have h2 : ¬ B < b - a := by intro hh; apply h; linarith
      rw [if_neg (fun hh => absurd hh.1 (not_le.mpr ha)),
        if_neg (fun hh => h2 hh.2.2),
        if_neg (fun hh => absurd hh.2.1 (not_lt.mpr hb)),
        if_neg (fun hh => absurd hh.1 (not_le.mpr ha)), if_neg h]
  · rw [abs_of_neg ha, abs_of_neg hb]
    by_cases h : B < -a + -b
    · have h2 : B < -b - a := by linarith
      rw [if_neg (fun hh => absurd hh.1 (not_le.mpr ha)),
        if_neg (fun hh => absurd hh.2.1 (not_le.mpr hb)),
        if_pos ⟨ha, hb, h2⟩, if_pos h, Double.fin_div_fin _ _ (by linarith)]
      rw [sub_eq_add_neg, add_comm]
    · have h2 : ¬ B < -b - a := by intro hh; apply h; linarith
      rw [if_neg (fun hh => absurd hh.1 (not_le.mpr ha)),
        if_neg (fun hh => absurd hh.2.1 (not_le.mpr hb)),
        if_neg (fun hh => h2 hh.2.2),
        if_neg (fun hh => absurd hh.1 (not_le.mpr ha)), if_neg h]

/-! ## Indexing -/

theorem at?_natCast {α : Type} (v : List α) (i : Nat) : at? v (i : Int) = v[i]? := by
  simp [at?]

theorem at?_eq_some {α : Type} {v : List α} {i : Int} {x : α} (h : at? v i = some x) :
    0 ≤ i ∧ i.toNat < v.length ∧ v[i.toNat]? = some x := by
  unfold at? at h
  split_ifs at h with h0
  refine ⟨not_lt.mp h0, ?_, h⟩
  exact (List.getElem?_eq_some.mp h).1

theorem at?_isSome {α : Type} (v : List α) (i : Int) (h0 : 0 ≤ i) (h1 : i < v.length) :
    ∃ x, at? v i = some x := by
  have h2 : i.toNat < v.length := by omega
  exact ⟨v[i.toNat], by simp [at?, not_lt.mpr h0, List.getElem?_eq_getElem h2]⟩

theorem toNat_ne_of_ne {i j : Int} (hi : 0 ≤ i) (hj : 0 ≤ j) (h : i ≠ j) :
    i.toNat ≠ j.toNat := by
  omega

/-! ## The pair loop -/

/-- One iteration of the pair loop on two distinct in-range indices. -/
theorem pairLoop_cons_cons (jv : List JointPD) (l r : Int) (rest : List Int)
    (commands : List Double) (lift roll : Double) (jl jr : JointPD) (hne : l ≠ r)
    (hl : at? commands l = some lift) (hr : at? commands r = some roll)
    (hjl : at? jv l = some jl) (hjr : at? jv r = some jr) :
    pairLoop jv (l :: r :: rest) commands
      = pairLoop jv rest
          ((commands.set l.toNat (lift * scalar lift roll (jl.max_torque + jr.max_torque))).set
            r.toNat (roll * scalar lift roll (jl.max_torque + jr.max_torque))) := by
  have h1 := at?_eq_some hl
  have h2 := at?_eq_some hr
  have hne2 : l.toNat ≠ r.toNat := toNat_ne_of_ne h1.1 h2.1 hne
  have hr1 : at? (commands.set l.toNat
      (lift * scalar lift roll (jl.max_torque + jr.max_torque))) r = some roll := by
    simp only [at?, not_lt.mpr h2.1, if_false, List.getElem?_set_ne hne2]
    exact h2.2.2
  simp only [pairLoop, hl, hr, hjl, hjr, hr1]

/-- The pair loop keeps the length of the commands vector. -/
theorem pairLoop_length (jv : List JointPD) :
    ∀ (ps : List Int) (commands out : List Double),
      pairLoop jv ps commands = some out → out.length = commands.length
  | [], commands, out, h => by
      simp only [pairLoop, Option.some.injEq] at h
      rw [← h]
  | [_], _, _, h => by simp [pairLoop] at h
  | l :: r :: rest, commands, out, h => by
      simp only [pairLoop] at h
      split at h
      · split at h
        · have := pairLoop_length jv rest _ out h
          simpa using this
        · exact absurd h (by simp)
      · exact absurd h (by simp)

/-- The pair loop leaves alone every entry whose index is not in the list. -/
theorem pairLoop_frame (jv : List JointPD) :
    ∀ (ps : List Int) (commands out : List Double) (i : Nat),
      pairLoop jv ps commands = some out → (i : Int) ∉ ps → out[i]? = commands[i]?
  | [], commands, out, i, h, _ => by
      simp only [pairLoop, Option.some.injEq] at h
      rw [← h]
  | [_], _, _, _, h, _ => by simp [pairLoop] at h
  | l :: r :: rest, commands, out, i, h, hi => by
      simp only [List.mem_cons, not_or] at hi
      simp only [pairLoop] at h
      split at h
      · rename_i lift roll jl jr hl hr hjl hjr
        split at h
        · rename_i roll1 hr1
          have h1 := at?_eq_some hl
          have h2 := at?_eq_some hr
          have e1 : l.toNat ≠ i := by omega
          have e2 : r.toNat ≠ i := by omega
          rw [pairLoop_frame jv rest _ out i h hi.2.2, List.getElem?_set_ne e2,
            List.getElem?_set_ne e1]
        · exact absurd h (by simp)
      · exact absurd h (by simp)

/-- The pair loop returns on an even-length list of in-range indices. -/
theorem pairLoop_total (jv : List JointPD) :
    ∀ (ps : List Int) (commands : List Double),
      Even ps.length → (∀ p ∈ ps, 0 ≤ p ∧ p < (jv.length : Int)) →
      commands.length = jv.length → ∃ out, pairLoop jv ps commands = some out
  | [], commands, _, _, _ => ⟨commands, by simp [pairLoop]⟩
  | [_], _, h, _, _ => by simp at h
  | l :: r :: rest, commands, h, hr, hlen => by
      have hev : Even rest.length := by
        simp only [List.length_cons] at h
        rcases h with ⟨k, hk⟩
        exact ⟨k - 1, by omega⟩
      have hl0 := hr l (by simp)
      have hr0 := hr r (by simp)
      obtain ⟨lift, hl⟩ := at?_isSome commands l hl0.1 (by rw [hlen]; exact hl0.2)
      obtain ⟨roll, hrr⟩ := at?_isSome commands r hr0.1 (by rw [hlen]; exact hr0.2)
      obtain ⟨jl, hjl⟩ := at?_isSome jv l hl0.1 hl0.2
      obtain ⟨jr, hjr⟩ := at?_isSome jv r hr0.1 hr0.2
      obtain ⟨roll1, hr1⟩ := at?_isSome
        (commands.set l.toNat (lift * scalar lift roll (jl.max_torque + jr.max_torque))) r hr0.1
        (by rw [List.length_set, hlen]; exact hr0.2)
      simp only [pairLoop, hl, hrr, hjl, hjr, hr1]
      exact pairLoop_total jv rest _ hev (fun p hp => hr p (by simp [hp])) (by simp [hlen])

/-- The pair loop over a concatenation whose first part has even length runs
the two parts one after the other. -/
theorem pairLoop_append (jv : List JointPD) :
    ∀ (pre rest : List Int) (commands : List Double), Even pre.length →
      pairLoop jv (pre ++ rest) commands
        = (pairLoop jv pre commands).bind (pairLoop jv rest)
  | [], rest, commands, _ => by simp [pairLoop]
  | [_], _, _, h => by simp at h
  | l :: r :: pre, rest, commands, h => by
      have hev : Even pre.length := by
        simp only [List.length_cons] at h
        rcases h with ⟨k, hk⟩
        exact ⟨k - 1, by omega⟩
      simp only [List.cons_append, pairLoop]
      split
      · split
        · exact pairLoop_append jv pre rest _ hev
        · rfl
      · rfl

theorem at?_of_nonneg {α : Type} (v : List α) {i : Int} (h : 0 ≤ i) : at? v i = v[i.toNat]? := by
  simp [at?, not_lt.mpr h]

/-- A pair of distinct joints that occur nowhere else in the list: the loop
returns, and the two entries are the incoming ones times the scalar of the
pair. -/
theorem pairLoop_sole (jv : List JointPD) (pre post : List Int) (l r : Int)
    (commands : List Double) (lift roll : Double) (jl jr : JointPD)
    (hpre : Even pre.length) (hpost : Even post.length)
    (hrange : ∀ p ∈ pre ++ l :: r :: post, 0 ≤ p ∧ p < (jv.length : Int))
    (hlen : commands.length = jv.length) (hne : l ≠ r)
    (hlpre : l ∉ pre) (hrpre : r ∉ pre) (hlpost : l ∉ post) (hrpost : r ∉ post)
    (hl : at? commands l = some lift) (hr : at? commands r = some roll)
    (hjl : at? jv l = some jl) (hjr : at? jv r = some jr) :
    ∃ out, pairLoop jv (pre ++ l :: r :: post) commands = some out ∧
      out.length = jv.length ∧
      at? out l = some (lift * scalar lift roll (jl.max_torque + jr.max_torque)) ∧
      at? out r = some (roll * scalar lift roll (jl.max_torque + jr.max_torque)) := by
  have hl0 := at?_eq_some hl
  have hr0 := at?_eq_some hr
  have hlc : ((l.toNat : Nat) : Int) = l := Int.toNat_of_nonneg hl0.1
  have hrc : ((r.toNat : Nat) : Int) = r := Int.toNat_of_nonneg hr0.1
  obtain ⟨out1, h1⟩ := pairLoop_total jv pre commands hpre
    (fun p hp => hrange p (by simp [hp])) hlen
  have len1 := pairLoop_length jv pre commands out1 h1
  have hl1 : at? out1 l = some lift := by
    rw [at?_of_nonneg _ hl0.1, pairLoop_frame jv pre commands out1 l.toNat h1 (by rwa [hlc])]
    exact hl0.2.2
  have hr1 : at? out1 r = some roll := by
    rw [at?_of_nonneg _ hr0.1, pairLoop_frame jv pre commands out1 r.toNat h1 (by rwa [hrc])]
    exact hr0.2.2
  rw [pairLoop_append jv pre _ commands hpre, h1, Option.some_bind,
    pairLoop_cons_cons jv l r post out1 lift roll jl jr hne hl1 hr1 hjl hjr]
  obtain ⟨out, h2⟩ := pairLoop_total jv post
    ((out1.set l.toNat (lift * scalar lift roll (jl.max_torque + jr.max_torque))).set
      r.toNat (roll * scalar lift roll (jl.max_torque + jr.max_torque))) hpost
    (fun p hp => hrange p (by simp [hp])) (by simp [len1, hlen])
  have len2 := pairLoop_length jv post _ out h2
  have hne2 : r.toNat ≠ l.toNat := toNat_ne_of_ne hr0.1 hl0.1 (Ne.symm hne)
  have hll : l.toNat < out1.length := by rw [len1]; exact hl0.2.1
  have hrl : r.toNat < out1.length := by rw [len1]; exact hr0.2.1
  refine ⟨out, h2, by simp [len2, len1, hlen], ?_, ?_⟩
  · rw [at?_of_nonneg _ hl0.1, pairLoop_frame jv post _ out l.toNat h2 (by rwa [hlc]),
      List.getElem?_set_ne hne2, List.getElem?_set_self hll]
  · rw [at?_of_nonneg _ hr0.1, pairLoop_frame jv post _ out r.toNat h2 (by rwa [hrc]),
      List.getElem?_set_self (by rw [List.length_set]; exact hrl)]

/-! ## The first loop of update -/

theorem computeCommand_isSome (c : InverseDynamicsController) (error : Double) (dt : Duration)
    (index : Int) (vel : Double) (j : JointPD) (t : Double)
    (hj : at? c.joint_vector index = some j) (ht : at? c.id_torques index = some t) :
    ∃ x, computeCommand c error dt index vel = some x := by
  unfold computeCommand
  simp only [hj, ht]
  split_ifs <;> exact ⟨_, rfl⟩

theorem rawCommand_isSome (c : InverseDynamicsController) (sad : Double → Double → Double)
    (period : Duration) (i : Nat) (hi : i < c.joint_vector.length)
    (hid : c.id_torques.length = c.joint_vector.length) :
    ∃ x, rawCommand c sad period i = some x := by
  have hi2 : i < c.id_torques.length := by omega
  unfold rawCommand
  rw [List.getElem?_eq_getElem hi]
  exact computeCommand_isSome c _ period i _ c.joint_vector[i] c.id_torques[i]
    (by rw [at?_natCast, List.getElem?_eq_getElem hi])
    (by rw [at?_natCast, List.getElem?_eq_getElem hi2])

theorem commandedEffort_eq (c : InverseDynamicsController) (sad : Double → Double → Double)
    (period : Duration) (i : Nat) (j : JointPD) (raw : Double)
    (hj : c.joint_vector[i]? = some j) (hraw : rawCommand c sad period i = some raw) :
    commandedEffort c sad period i
      = some (if (i : Int) ∉ c.paired_constraints then
          stdMin (stdMax raw j.min_torque) j.max_torque else raw) := by
  unfold commandedEffort
  simp only [hj, hraw]
  split_ifs <;> rfl

theorem commandsLoop_total (c : InverseDynamicsController) (sad : Double → Double → Double)
    (period : Duration) :
    ∀ (is : List Nat), (∀ i ∈ is, ∃ x, commandedEffort c sad period i = some x) →
      ∃ out, commandsLoop c sad period is = some out
  | [], _ => ⟨[], rfl⟩
  | i :: is, h => by
      obtain ⟨x, hx⟩ := h i (by simp)
      obtain ⟨xs, hxs⟩ := commandsLoop_total c sad period is (fun k hk => h k (by simp [hk]))
      exact ⟨x :: xs, by simp only [commandsLoop, hx, hxs]⟩

theorem commandsLoop_getElem? (c : InverseDynamicsController)
    (sad : Double → Double → Double) (period : Duration) :
    ∀ (is : List Nat) (out : List Double), commandsLoop c sad period is = some out →
      out.length = is.length ∧
      ∀ (k i : Nat), is[k]? = some i → out[k]? = commandedEffort c sad period i
  | [], out, h => by
      simp only [commandsLoop, Option.some.injEq] at h
      subst h
      simp
  | i :: is, out, h => by
      simp only [commandsLoop] at h
      split at h
      · rename_i x xs hx hxs
        simp only [Option.some.injEq] at h
        subst h
        have ih := commandsLoop_getElem? c sad period is xs hxs
        refine ⟨by simp [ih.1], ?_⟩
        intro k i2 hk
        cases k with
        | zero =>
            simp only [List.getElem?_cons_zero, Option.some.injEq] at hk
            subst hk
            simp [hx]
        | succ k =>
            simp only [List.getElem?_cons_succ] at hk ⊢
            exact ih.2 k i2 hk
      · exact absurd h (by simp)

/-! ## update -/

/-- The first loop of `update` returns, and entry `i` of its vector is the
commanded effort of joint `i`. -/
theorem firstLoop_spec (c : InverseDynamicsController) (sad : Double → Double → Double)
    (period : Duration) (hid : c.id_torques.length = c.joint_vector.length) :
    ∃ commands, commandsLoop c sad period (List.range c.joint_vector.length) = some commands ∧
      commands.length = c.joint_vector.length ∧
      ∀ i, i < c.joint_vector.length → commands[i]? = commandedEffort c sad period i := by
  obtain ⟨commands, h⟩ := commandsLoop_total c sad period (List.range c.joint_vector.length)
    (fun i hi => by
      have hi2 : i < c.joint_vector.length := List.mem_range.mp hi
      obtain ⟨raw, hraw⟩ := rawCommand_isSome c sad period i hi2 hid
      exact ⟨_, commandedEffort_eq c sad period i _ raw (List.getElem?_eq_getElem hi2) hraw⟩)
  have hs := commandsLoop_getElem? c sad period _ commands h
  refine ⟨commands, h, by simpa using hs.1, ?_⟩
  intro i hi
  exact hs.2 i i (List.getElem?_range hi)

/-- Once the commands vector is computed, `update` returns and joint `i`
receives entry `i`. -/
theorem update_of_updateCommands (c : InverseDynamicsController)
    (sad : Double → Double → Double) (period : Duration) (out : List Double)
    (h : updateCommands c sad period = some out) (hlen : out.length = c.joint_vector.length) :
    ∃ c2, update c sad period = some c2 ∧ ∀ i, sentCommand c2 i = at? out i := by
  have hu : update c sad period = some { c with
      joint_vector := List.zipWith
        (fun j x => { j with joint := { j.joint with command := x } })
        c.joint_vector out } := by
    simp only [update, h]
  refine ⟨_, hu, ?_⟩
  intro i
  unfold sentCommand at?
  split_ifs with h0
  · rfl
  · simp only [List.getElem?_zipWith]
    by_cases hk : i.toNat < out.length
    · have hk2 : i.toNat < c.joint_vector.length := by omega
      simp [List.getElem?_eq_getElem hk, List.getElem?_eq_getElem hk2]
    · have hk2 : ¬ i.toNat < c.joint_vector.length := by omega
      simp [List.getElem?_eq_none (not_lt.mp hk), List.getElem?_eq_none (not_lt.mp hk2)]

/-- A joint outside the pair list: `update` returns and sends it the raw
effort clamped to its torque limits. -/
theorem update_unpaired (c : InverseDynamicsController) (sad : Double → Double → Double)
    (period : Duration) (hwf : WellFormed c) (i : Nat) (j : JointPD)
    (hj : c.joint_vector[i]? = some j) (hi : (i : Int) ∉ c.paired_constraints) :
    ∃ c2 raw, update c sad period = some c2 ∧ rawCommand c sad period i = some raw ∧
      sentCommand c2 i = some (stdMin (stdMax raw j.min_torque) j.max_torque) := by
  obtain ⟨hev, hrange, hid⟩ := hwf
  have hin : i < c.joint_vector.length := (List.getElem?_eq_some.mp hj).1
  obtain ⟨commands, h1, hlen, hget⟩ := firstLoop_spec c sad period hid
  obtain ⟨raw, hraw⟩ := rawCommand_isSome c sad period i hin hid
  obtain ⟨out, h2⟩ := pairLoop_total c.joint_vector c.paired_constraints commands hev hrange hlen
  have hout : updateCommands c sad period = some out := by simp only [updateCommands, h1, h2]
  have hlen2 := pairLoop_length _ _ _ _ h2
  obtain ⟨c2, hc2, hsent⟩ := update_of_updateCommands c sad period out hout (by omega)
  refine ⟨c2, raw, hc2, hraw, ?_⟩
  rw [hsent, at?_natCast, pairLoop_frame _ _ _ _ i h2 hi, hget i hin,
    commandedEffort_eq c sad period i j raw hj hraw, if_pos hi]

/-- A declared pair of distinct joints that occur nowhere else in the pair
list: `update` returns and sends each member its raw effort times the scalar of
the pair. -/
theorem update_pair (c : InverseDynamicsController) (sad : Double → Double → Double)
    (period : Duration) (hwf : WellFormed c) (pre post : List Int) (l r : Int)
    (hsole : SolePair c pre post l r) (jl jr : JointPD)
    (hjl : at? c.joint_vector l = some jl) (hjr : at? c.joint_vector r = some jr) :
    ∃ c2 lift roll, update c sad period = some c2 ∧
      rawCommand c sad period l.toNat = some lift ∧
      rawCommand c sad period r.toNat = some roll ∧
      sentCommand c2 l = some (lift * scalar lift roll (jl.max_torque + jr.max_torque)) ∧
      sentCommand c2 r = some (roll * scalar lift roll (jl.max_torque + jr.max_torque)) := by
  obtain ⟨hev, hrange, hid⟩ := hwf
  obtain ⟨hpc, hpre, hne, hlpre, hrpre, hlpost, hrpost⟩ := hsole
  have hl0 := at?_eq_some hjl
  have hr0 := at?_eq_some hjr
  have hlc : ((l.toNat : Nat) : Int) = l := Int.toNat_of_nonneg hl0.1
  have hrc : ((r.toNat : Nat) : Int) = r := Int.toNat_of_nonneg hr0.1
  have hpost : Even post.length := by
    rw [hpc] at hev
    simp only [List.length_append, List.length_cons] at hev
    rcases hev with ⟨k, hk⟩
    rcases hpre with ⟨m, hm⟩
    exact ⟨k - m - 1, by omega⟩
  obtain ⟨commands, h1, hlen, hget⟩ := firstLoop_spec c sad period hid
  obtain ⟨lift, hlift⟩ := rawCommand_isSome c sad period l.toNat hl0.2.1 hid
  obtain ⟨roll, hroll⟩ := rawCommand_isSome c sad period r.toNat hr0.2.1 hid
  have hlmem : ((l.toNat : Nat) : Int) ∈ c.paired_constraints := by
    rw [hlc, hpc]; simp
  have hrmem : ((r.toNat : Nat) : Int) ∈ c.paired_constraints := by
    rw [hrc, hpc]; simp
  have hcl : at? commands l = some lift := by
    rw [at?_of_nonneg _ hl0.1, hget _ hl0.2.1,
      commandedEffort_eq c sad period _ jl lift hl0.2.2 hlift, if_neg (not_not.mpr hlmem)]
  have hcr : at? commands r = some roll := by
    rw [at?_of_nonneg _ hr0.1, hget _ hr0.2.1,
      commandedEffort_eq c sad period _ jr roll hr0.2.2 hroll, if_neg (not_not.mpr hrmem)]
  obtain ⟨out, h2, hlen2, hol, hor⟩ := pairLoop_sole c.joint_vector pre post l r commands
    lift roll jl jr hpre hpost (by rw [← hpc]; exact hrange) hlen hne hlpre hrpre hlpost hrpost
    hcl hcr hjl hjr
  have hout : updateCommands c sad period = some out := by
    simp only [updateCommands, h1, hpc, h2]
  obtain ⟨c2, hc2, hsent⟩ := update_of_updateCommands c sad period out hout hlen2
  exact ⟨c2, lift, roll, hc2, hlift, hroll, by rw [hsent, hol], by rw [hsent, hor]⟩

/-! ## setCommand -/

/-- The remainder `y - trunc (y / M) * M` of `fmod` for a positive modulus: it
has the sign of `y` and magnitude below `M`. -/
theorem fmod_remainder_bounds (y M : ℚ) (hM : 0 < M) :
    (0 ≤ y → 0 ≤ y - (trunc (y / M) : ℚ) * M ∧ y - (trunc (y / M) : ℚ) * M < M) ∧
    (y < 0 → -M < y - (trunc (y / M) : ℚ) * M ∧ y - (trunc (y / M) : ℚ) * M ≤ 0) := by
  constructor
  · intro hy
    have hq : 0 ≤ y / M := div_nonneg hy (le_of_lt hM)
    unfold trunc
    rw [if_pos hq]
    have h1 : (⌊y / M⌋ : ℚ) ≤ y / M := Int.floor_le _
    have h2 : y / M < (⌊y / M⌋ : ℚ) + 1 := Int.lt_floor_add_one _
    rw [le_div_iff₀ hM] at h1
    rw [div_lt_iff₀ hM] at h2
    constructor <;> nlinarith
  · intro hy
    have hq : ¬ 0 ≤ y / M := not_le.mpr (div_neg_of_neg_of_pos hy hM)
    unfold trunc
    rw [if_neg hq]
    have h1 : y / M ≤ (⌈y / M⌉ : ℚ) := Int.le_ceil _
    have h2 : (⌈y / M⌉ : ℚ) < y / M + 1 := Int.ceil_lt_add_one _
    rw [div_le_iff₀ hM] at h1
    have h3 : (⌈y / M⌉ : ℚ) * M < y + M := by
      have := mul_lt_mul_of_pos_right h2 hM
      rwa [add_mul, div_mul_cancel₀ _ (ne_of_gt hM), one_mul] at this
    constructor <;> linarith

/-- On a finite input the wrap-around lines return a finite value in
`[-3.1415926535, 6.28318530718 - 3.1415926535)`. -/
theorem wrapAngle_fin (x : ℚ) :
    ∃ w : ℚ, wrapAngle (fin x) = fin w ∧ -3.1415926535 ≤ w ∧
      w < 6.28318530718 - 3.1415926535 := by
  have hM : (0 : ℚ) < 6.28318530718 := by norm_num
  have hb := fmod_remainder_bounds (x + 3.14159265359) 6.28318530718 hM
  have hfm : fmod (fin x + fin 3.14159265359) (fin 6.28318530718)
      = fin ((x + 3.14159265359)
          - (trunc ((x + 3.14159265359) / 6.28318530718) : ℚ) * 6.28318530718) := by
    rw [Double.fin_add_fin]
    show (if (6.28318530718 : ℚ) = 0 then nan else _) = _
    rw [if_neg (ne_of_gt hM)]
  unfold wrapAngle
  simp only [hfm, Double.zero_def, Double.fin_lt_fin]
  rcases le_or_lt 0 (x + 3.14159265359) with hy | hy
  · obtain ⟨h1, h2⟩ := hb.1 hy
    rw [if_neg (not_lt.mpr h1), Double.fin_sub_fin]
    exact ⟨_, rfl, by linarith, by linarith⟩
  · obtain ⟨h1, h2⟩ := hb.2 hy
    by_cases hr : (x + 3.14159265359)
        - (trunc ((x + 3.14159265359) / 6.28318530718) : ℚ) * 6.28318530718 < 0
    · rw [if_pos hr, Double.fin_add_fin, Double.fin_sub_fin]
      exact ⟨_, rfl, by linarith, by linarith⟩
    · rw [if_neg hr, Double.fin_sub_fin]
      exact ⟨_, rfl, by linarith, by linarith⟩

/-- The loop of `setCommand` returns on a message no longer than the joint
vector, and stores in joint `i` the wrapped and clamped entry `i`. -/
theorem setCommandLoop_spec :
    ∀ (jv : List JointPD) (xs : List Double), xs.length ≤ jv.length →
      ∃ jv2, setCommandLoop jv xs = some jv2 ∧
        ∀ (i : Nat) (j : JointPD) (x : Double), jv[i]? = some j → xs[i]? = some x →
          jv2[i]? = some { j with
            cmd := stdMin (stdMax (wrapAngle x) j.min_angle) j.max_angle }
  | jv, [], _ => ⟨jv, by cases jv <;> rfl, by simp⟩
  | [], x :: xs, h => by simp at h
  | j0 :: jv, x0 :: xs, h => by
      obtain ⟨rest, hrest, hspec⟩ := setCommandLoop_spec jv xs (by simpa using h)
      have hstep : setCommandLoop (j0 :: jv) (x0 :: xs)
          = some ({ j0 with
              cmd := stdMin (stdMax (wrapAngle x0) j0.min_angle) j0.max_angle } :: rest) := by
        simp only [setCommandLoop, hrest]
      refine ⟨_, hstep, ?_⟩
      intro i j x hj hx
      cases i with
      | zero =>
          simp only [List.getElem?_cons_zero, Option.some.injEq] at hj hx ⊢
          subst hj; subst hx; rfl
      | succ i =>
          simp only [List.getElem?_cons_succ] at hj hx ⊢
          exact hspec i j x hj hx

/-! ## Helpers for the claims -/

theorem Double.fin_div_fin_eq (a b : ℚ) :
    fin a / fin b
      = if b = 0 then (if a = 0 then nan else infOfSign (decide (a < 0))) else fin (a / b) := rfl

theorem Double.pos_of_le_of_lt (b d : Double) (hb : (0 : Double) ≤ b) (hd : b < d) :
    (0 : Double) < d ∧ d ≠ 0 := by
  rw [Double.zero_def] at *
  cases b <;> cases d <;>
    simp only [Double.le_def, Double.lt_def, Double.le, Double.lt, ne_eq, reduceCtorEq,
      not_false_eq_true, and_self, Double.fin.injEq] at *
  exact ⟨lt_of_le_of_lt hb hd, ne_of_gt (lt_of_le_of_lt hb hd)⟩

/-- The scalar of the pair loop is the budget over the divisor of the branch
taken, and `1` when no branch is taken. -/
theorem scalar_eq_div (lift roll max_effort : Double) :
    scalar lift roll max_effort
      = match scalarDivisor lift roll max_effort with
        | some d => max_effort / d
        | none => 1 := by
  unfold scalar scalarDivisor
  split_ifs <;> rfl

/-- A taken branch has a divisor above the budget. -/
theorem scalarDivisor_gt (lift roll max_effort d : Double)
    (h : scalarDivisor lift roll max_effort = some d) : d > max_effort := by
  unfold scalarDivisor at h
  split_ifs at h with h1 h2 h3 h4
  · cases h; exact h1.2.2
  · cases h; exact h2.2.2
  · cases h; exact h3.2.2
  · cases h; exact h4.2.2

/-- Multiplying by the double `1` changes nothing. -/
theorem Double.mul_one_eq (x : Double) : x * 1 = x := by
  rw [Double.one_def, Double.mul_def]
  cases x <;> simp [Double.mul, infOfSign]

/-- For a positive finite budget the scalar of the pair loop lies in `[0, 1]`,
whatever the two commands are. -/
theorem scalar_bounds (lift roll : Double) (B : ℚ) (hB : 0 < B) :
    (0 : Double) ≤ scalar lift roll (fin B) ∧ scalar lift roll (fin B) ≤ 1 := by
  rw [scalar_eq_div]
  cases hd : scalarDivisor lift roll (fin B) with
  | none =>
      simp only [Double.zero_def, Double.one_def, Double.fin_le_fin]
      exact ⟨zero_le_one, le_refl _⟩
  | some d =>
      have hgt : fin B < d := scalarDivisor_gt lift roll (fin B) d hd
      cases d with
      | fin x =>
          have hx : B < x := hgt
          have hx0 : 0 < x := lt_trans hB hx
          simp only [Double.fin_div_fin B x (ne_of_gt hx0), Double.zero_def, Double.one_def,
            Double.fin_le_fin]
          exact ⟨le_of_lt (div_pos hB hx0), (div_le_one hx0).mpr (le_of_lt hx)⟩
      | pinf =>
          show (0 : Double) ≤ fin 0 ∧ fin 0 ≤ (1 : Double)
          simp only [Double.zero_def, Double.one_def, Double.fin_le_fin]
          exact ⟨le_refl _, zero_le_one⟩
      | ninf => exact absurd hgt (by simp [Double.lt_def, Double.lt])
      | nan => exact absurd hgt (by simp [Double.lt_def, Double.lt])

/-- A scalar in `[0, 1]` never gives a product of the sign opposite to the
factor. -/
theorem mul_scalar_sign (x s : Double) (h0 : (0 : Double) ≤ s) (h1 : s ≤ 1) :
    ¬ ((0 : Double) ≤ x ∧ x * s < 0) ∧ ¬ (x ≤ 0 ∧ (0 : Double) < x * s) := by
  rw [Double.zero_def] at *
  rw [Double.one_def] at h1
  cases s with
  | fin q =>
      have hq0 : 0 ≤ q := h0
      cases x with
      | fin a =>
          simp only [Double.fin_mul_fin, Double.fin_le_fin, Double.fin_lt_fin, not_and, not_lt]
          exact ⟨fun ha => mul_nonneg ha hq0, fun ha => mul_nonpos_of_nonpos_of_nonneg ha hq0⟩
      | pinf =>
          by_cases hq : q = 0
          · simp [Double.mul_def, Double.mul, hq, Double.lt_def, Double.lt]
          · have hpos : 0 < q := lt_of_le_of_ne hq0 (Ne.symm hq)
            simp [Double.mul_def, Double.mul, hq, infOfSign, not_lt.mpr hq0, Double.lt_def,
              Double.lt, Double.le_def, Double.le]
      | ninf =>
          by_cases hq : q = 0
          · simp [Double.mul_def, Double.mul, hq, Double.lt_def, Double.lt]
          · have hpos : 0 < q := lt_of_le_of_ne hq0 (Ne.symm hq)
            simp [Double.mul_def, Double.mul, hq, infOfSign, hpos, Double.lt_def,
              Double.lt, Double.le_def, Double.le]
      | nan => simp [Double.mul_def, Double.mul, Double.lt_def, Double.lt]
  | pinf => exact absurd h1 (by simp [Double.le_def, Double.le])
  | ninf => exact absurd h0 (by simp [Double.le_def, Double.le])
  | nan => exact absurd h0 (by simp [Double.le_def, Double.le])

/-- Within the budget no branch is taken: the scalar is `1`. -/
theorem scalar_within_budget (a b B : ℚ) (hB : 0 ≤ B) (h : |a| + |b| ≤ B) :
    scalar (fin a) (fin b) (fin B) = 1 := by
  rw [scalar_fin a b B hB, if_neg (not_lt.mpr h), Double.one_def]

theorem overlap_updateCommands :
    updateCommands overlapController zeroSad oneSecond
      = some [fin 6, fin (1 / 4), fin (31 / 4)] := by
  simp [updateCommands, overlapController, commandsLoop, List.range, List.range.loop,
    commandedEffort, rawCommand, computeCommand, zeroSad, oneSecond, exampleJoint, pairLoop,
    at?, scalar, Duration.zero, isnan, isinf, Double.zero_def, Double.one_def,
    Double.ofNat_def, Double.fin_div_fin_eq]
  norm_num [Double.fin_div_fin_eq]

theorem overlap_raw :
    rawCommand overlapController zeroSad oneSecond 0 = some (fin 12) ∧
    rawCommand overlapController zeroSad oneSecond 1 = some (fin 4) := by
  simp [overlapController, rawCommand, computeCommand, zeroSad, oneSecond, exampleJoint, at?,
    Duration.zero, isnan, isinf, Double.zero_def, Double.one_def, Double.ofNat_def]

theorem overlap_sent :
    ∃ c2, update overlapController zeroSad oneSecond = some c2 ∧
      sentCommand c2 0 = some (fin 6) ∧ sentCommand c2 1 = some (fin (1 / 4)) := by
  obtain ⟨c2, hu, hs⟩ := update_of_updateCommands overlapController zeroSad oneSecond _
    overlap_updateCommands (by rfl)
  exact ⟨c2, hu, by rw [hs]; rfl, by rw [hs]; rfl⟩

theorem infiniteVelocity_raw :
    rawCommand infiniteVelocityController zeroSad oneSecond 0 = some pinf ∧
    rawCommand infiniteVelocityController zeroSad oneSecond 1 = some (fin 1) := by
  simp [infiniteVelocityController, rawCommand, computeCommand, zeroSad, oneSecond,
    exampleJoint, exampleJointV, at?, Duration.zero, isnan, isinf, Double.zero_def,
    Double.one_def, Double.ofNat_def, Double.neg_def, Double.neg, Double.mul_def, Double.mul,
    infOfSign]
  norm_num [Double.add_def, Double.add]

theorem infiniteVelocity_updateCommands :
    updateCommands infiniteVelocityController zeroSad oneSecond = some [nan, fin 0] := by
  have h0 : commandedEffort infiniteVelocityController zeroSad oneSecond 0 = some pinf := by
    rw [commandedEffort_eq infiniteVelocityController zeroSad oneSecond 0
      (exampleJointV (-5) 5 ninf) pinf rfl infiniteVelocity_raw.1]
    simp [infiniteVelocityController]
  have h1 : commandedEffort infiniteVelocityController zeroSad oneSecond 1 = some (fin 1) := by
    rw [commandedEffort_eq infiniteVelocityController zeroSad oneSecond 1
      (exampleJoint (-5) 5) (fin 1) rfl infiniteVelocity_raw.2]
    simp [infiniteVelocityController]
  have hs : scalar pinf (fin 1) (fin 5 + fin 5) = fin 0 := by
    simp [scalar, Double.zero_def, Double.add_def, Double.add, Double.div_def, Double.div,
      Double.lt_def, Double.lt, Double.le_def, Double.le]
  have hloop : commandsLoop infiniteVelocityController zeroSad oneSecond (List.range 2)
      = some [pinf, fin 1] := by
    simp [commandsLoop, List.range, List.range.loop, h0, h1]
  have hjv : infiniteVelocityController.joint_vector.length = 2 := rfl
  simp only [updateCommands, hjv, hloop]
  rw [show infiniteVelocityController.paired_constraints = [0, 1] from rfl,
    pairLoop_cons_cons infiniteVelocityController.joint_vector 0 1 [] [pinf, fin 1] pinf (fin 1) (exampleJointV (-5) 5 ninf)
      (exampleJoint (-5) 5) (by decide) rfl rfl rfl rfl]
  have hb : (exampleJointV (-5) 5 ninf).max_torque + (exampleJoint (-5) 5).max_torque
      = fin 5 + fin 5 := by
    simp [exampleJointV, exampleJoint, Double.ofNat_def]
  rw [hb, hs]
  simp [pairLoop, Double.mul_def, Double.mul]

theorem infiniteVelocity_sent :
    ∃ c2, update infiniteVelocityController zeroSad oneSecond = some c2 ∧
      sentCommand c2 0 = some nan ∧ sentCommand c2 1 = some (fin 0) := by
  obtain ⟨c2, hu, hs⟩ := update_of_updateCommands infiniteVelocityController zeroSad
    oneSecond _ infiniteVelocity_updateCommands (by rfl)
  exact ⟨c2, hu, by rw [hs]; rfl, by rw [hs]; rfl⟩

/-- The raw commands of `pairController t0 t1` are `t0` and `t1`. -/
theorem pair_raw (t0 t1 : ℚ) :
    rawCommand (pairController (fin t0) (fin t1)) zeroSad oneSecond (Int.toNat 0)
      = some (fin t0) ∧
    rawCommand (pairController (fin t0) (fin t1)) zeroSad oneSecond (Int.toNat 1)
      = some (fin t1) := by
  simp [pairController, rawCommand, computeCommand, zeroSad, oneSecond, exampleJoint, at?,
    Duration.zero, isnan, isinf, Double.zero_def, Double.one_def]

/-- The pair loop reads past the end of an odd-length list. -/
theorem pairLoop_odd_none (jv : List JointPD) :
    ∀ (ps : List Int) (commands : List Double), ps.length % 2 = 1 →
      pairLoop jv ps commands = none
  | [], _, h => by simp at h
  | [_], _, _ => rfl
  | l :: r :: rest, commands, h => by
      have hrest : rest.length % 2 = 1 := by
        simp only [List.length_cons] at h
        omega
      simp only [pairLoop]
      split
      · split
        · exact pairLoop_odd_none jv rest _ hrest
        · rfl
      · rfl

/-- With an odd-length pair list `update` has no defined result. -/
theorem update_odd_none (c : InverseDynamicsController) (sad : Double → Double → Double)
    (period : Duration) (h : c.paired_constraints.length % 2 = 1) :
    update c sad period = none := by
  have hc : updateCommands c sad period = none := by
    unfold updateCommands
    split
    · rfl
    · exact pairLoop_odd_none _ _ _ h
  simp only [update, hc]

/-! ## Binary64 rounding on the examples -/

theorem isBinary64_of_int_mul_zpow (m e : ℤ) (hm : |m| < 2 ^ 53) (h1 : -1074 ≤ e)
    (h2 : e ≤ 971) : IsBinary64 (m * (2 : ℚ) ^ e) :=
  ⟨m, e, hm, h1, h2, rfl⟩

/-- A binary64 value is its own nearest value. -/
theorem nearest_of_isBinary64 (q r : ℚ) (hq : IsBinary64 q) (hr : IsNearestBinary64 q r) :
    r = q := by
  have h := hr.2 q hq
  rw [sub_self, abs_zero] at h
  have h0 : |q - r| = 0 := le_antisymm h (abs_nonneg _)
  have := abs_eq_zero.mp h0
  linarith

/-- A binary64 value of magnitude at least `2 ^ j` is an integer multiple of
`2 ^ (j - 52)`. -/
theorem isBinary64_grid (s : ℚ) (j : ℤ) (hs : IsBinary64 s) (hj : (2 : ℚ) ^ j ≤ |s|) :
    ∃ z : ℤ, s * (2 : ℚ) ^ (52 - j) = z := by
  obtain ⟨m, e, hm, _, _, rfl⟩ := hs
  have h2 : (0 : ℚ) < 2 := by norm_num
  have hpe : (0 : ℚ) < (2 : ℚ) ^ e := zpow_pos h2 e
  have hmq : |(m : ℚ)| < 2 ^ 53 := by
    have : ((|m| : ℤ) : ℚ) < ((2 ^ 53 : ℤ) : ℚ) := by exact_mod_cast hm
    simpa using this
  have hlt : (2 : ℚ) ^ j < (2 : ℚ) ^ (53 + e) := by
    calc (2 : ℚ) ^ j ≤ |(m : ℚ) * (2 : ℚ) ^ e| := hj
      _ = |(m : ℚ)| * (2 : ℚ) ^ e := by rw [abs_mul, abs_of_pos hpe]
      _ < 2 ^ 53 * (2 : ℚ) ^ e := mul_lt_mul_of_pos_right hmq hpe
      _ = (2 : ℚ) ^ (53 + e) := by
          rw [zpow_add₀ (ne_of_gt h2)]
          norm_num
  have hje : j < 53 + e := (zpow_lt_zpow_iff_right₀ (by norm_num : (1 : ℚ) < 2)).mp hlt
  have hk : 0 ≤ e + (52 - j) := by omega
  refine ⟨m * 2 ^ (e + (52 - j)).toNat, ?_⟩
  rw [mul_assoc, ← zpow_add₀ (ne_of_gt h2)]
  have : (2 : ℚ) ^ (e + (52 - j)) = (2 : ℚ) ^ ((e + (52 - j)).toNat : ℤ) := by
    rw [Int.toNat_of_nonneg hk]
  rw [this, zpow_natCast]
  push_cast
  ring

/-- Round-to-nearest of `10 / 12` in binary64 is `7505999378950827 / 2 ^ 53`,
which lies above `10 / 12`. -/
theorem nearest_ten_twelfths (s : ℚ) (h : IsNearestBinary64 (10 / 12) s) :
    s = 7505999378950827 / 2 ^ 53 := by
  have hup : IsBinary64 ((7505999378950827 : ℤ) * (2 : ℚ) ^ (-53 : ℤ)) :=
    isBinary64_of_int_mul_zpow _ _ (by norm_num) (by norm_num) (by norm_num)
  have hd := h.2 _ hup
  have hval : ((7505999378950827 : ℤ) : ℚ) * (2 : ℚ) ^ (-53 : ℤ)
      = 7505999378950827 / 2 ^ 53 := by
    rw [zpow_neg]
    norm_num
  rw [hval] at hd
  have habs : |(10 / 12 : ℚ) - 7505999378950827 / 2 ^ 53| = 1 / (3 * 2 ^ 53) := by
    rw [abs_of_neg (by norm_num)]
    norm_num
  rw [habs] at hd
  have hb := abs_le.mp hd
  have hs_lo : (1 / 2 : ℚ) ≤ s := by
    have := hb.2
    norm_num at this ⊢
    linarith
  have hgrid := isBinary64_grid s (-1) h.1 (by
    rw [abs_of_pos (by linarith)]
    norm_num
    linarith)
  obtain ⟨z, hz⟩ := hgrid
  have hz2 : s = z / 2 ^ 53 := by
    have : (52 : ℤ) - (-1) = ((53 : ℕ) : ℤ) := by norm_num
    rw [this, zpow_natCast] at hz
    field_simp
    linarith
  rw [hz2] at hb ⊢
  have h1 : (7505999378950826 : ℚ) < z := by
    have := hb.2
    field_simp at this
    norm_num at this
    linarith
  have h2 : (z : ℚ) < 7505999378950828 := by
    have := hb.1
    field_simp at this
    norm_num at this
    linarith
  have h1z : (7505999378950826 : ℤ) < z := by exact_mod_cast h1
  have h2z : z < (7505999378950828 : ℤ) := by exact_mod_cast h2
  have : z = 7505999378950827 := by omega
  rw [this]
  norm_num

/-- Budget `10 = 5 + 5` and raw `(1, 11)` in binary64: the scalar is the value
nearest to `10 / 12`, the product `1 * s` is exact and the product `11 * s` is
rounded, so that `lift2 * roll` differs from `roll2 * lift`. -/
theorem rounded_example_ratio (s l2 r2 : ℚ) (hs : IsNearestBinary64 (10 / 12) s)
    (hl : IsNearestBinary64 (1 * s) l2) (hr : IsNearestBinary64 (11 * s) r2) :
    l2 * 11 ≠ r2 * 1 := by
  have hs2 := nearest_ten_twelfths s hs
  subst hs2
  have e1 : (1 : ℚ) * (7505999378950827 / 2 ^ 53)
      = ((7505999378950827 : ℤ) : ℚ) * (2 : ℚ) ^ (-53 : ℤ) := by
    rw [zpow_neg]
    norm_num
  have hl2 := nearest_of_isBinary64 _ l2 (by
    rw [e1]
    exact isBinary64_of_int_mul_zpow _ _ (by norm_num) (by norm_num) (by norm_num)) hl
  intro heq
  rw [hl2, mul_one] at heq
  obtain ⟨z, hz⟩ := isBinary64_grid r2 3 hr.1 (by
    rw [← heq]
    rw [abs_of_pos (by norm_num)]
    norm_num)
  rw [← heq] at hz
  have h16 : (82565993168459097 : ℚ) = 16 * z := by
    have : (52 : ℤ) - 3 = ((49 : ℕ) : ℤ) := by norm_num
    rw [this, zpow_natCast] at hz
    norm_num at hz
    linarith
  have h16z : (82565993168459097 : ℤ) = 16 * z := by exact_mod_cast h16
  omega

/-! ## The claims -/

/-- C8 (amended). For a declared pair `(l, r)` of two distinct joints that
occur nowhere else in the pair list, with finite torque limits of positive sum,
and for all raw commands `lift`, `roll`: `update` returns and sends `lift * s`
and `roll * s` for the one scalar `s` of the pair loop, with `0 <= s <= 1`; no
output has the sign opposite to its input; and `s = 1` with both commands
unchanged whenever the raw commands are finite with combined effort at most
the budget. -/
theorem pair_common_scalar (c : InverseDynamicsController) (sad : Double → Double → Double)
    (period : Duration) (pre post : List Int) (l r : Int) (jl jr : JointPD) (m1 m2 : ℚ)
    (lift roll : Double)
    (hwf : WellFormed c) (hsole : SolePair c pre post l r)
    (hjl : at? c.joint_vector l = some jl) (hjr : at? c.joint_vector r = some jr)
    (hm1 : jl.max_torque = fin m1) (hm2 : jr.max_torque = fin m2) (hB : 0 < m1 + m2)
    (hl : rawCommand c sad period l.toNat = some lift)
    (hr : rawCommand c sad period r.toNat = some roll) :
    ∃ c2 s, update c sad period = some c2 ∧
      s = scalar lift roll (fin m1 + fin m2) ∧ (0 : Double) ≤ s ∧ s ≤ 1 ∧
      sentCommand c2 l = some (lift * s) ∧ sentCommand c2 r = some (roll * s) ∧
      ¬ ((0 : Double) ≤ lift ∧ lift * s < 0) ∧ ¬ (lift ≤ 0 ∧ (0 : Double) < lift * s) ∧
      ¬ ((0 : Double) ≤ roll ∧ roll * s < 0) ∧ ¬ (roll ≤ 0 ∧ (0 : Double) < roll * s) ∧
      (∀ a b : ℚ, lift = fin a → roll = fin b → |a| + |b| ≤ m1 + m2 →
        s = 1 ∧ sentCommand c2 l = some (fin a) ∧ sentCommand c2 r = some (fin b)) := by
  obtain ⟨c2, lift2, roll2, hu, hl2, hr2, hsl, hsr⟩ :=
    update_pair c sad period hwf pre post l r hsole jl jr hjl hjr
  rw [hl] at hl2
  rw [hr] at hr2
  cases hl2
  cases hr2
  rw [hm1, hm2] at hsl hsr
  have hbd := scalar_bounds lift roll (m1 + m2) hB
  rw [← Double.fin_add_fin] at hbd
  refine ⟨c2, _, hu, rfl, hbd.1, hbd.2, hsl, hsr,
    (mul_scalar_sign lift _ hbd.1 hbd.2).1, (mul_scalar_sign lift _ hbd.1 hbd.2).2,
    (mul_scalar_sign roll _ hbd.1 hbd.2).1, (mul_scalar_sign roll _ hbd.1 hbd.2).2, ?_⟩
  intro a b hla hrb hle
  subst hla
  subst hrb
  have h1 := scalar_within_budget a b (m1 + m2) (le_of_lt hB) hle
  rw [← Double.fin_add_fin] at h1
  rw [h1, Double.mul_one_eq] at hsl hsr
  exact ⟨h1, hsl, hsr⟩

/-- Witness of C8: limits `(5, 5)` (budget `10`) and raw `(3, 2)` stay `(3, 2)`. -/
theorem pair_common_scalar_witness :
    ∃ c2, update (pairController (fin 3) (fin 2)) zeroSad oneSecond = some c2 ∧
      sentCommand c2 0 = some (fin 3) ∧ sentCommand c2 1 = some (fin 2) := by
  obtain ⟨c2, s, hu, _, _, _, _, _, _, _, _, _, hnoop⟩ :=
    pair_common_scalar (pairController (fin 3) (fin 2)) zeroSad oneSecond [] [] 0 1
      (exampleJoint (-5) 5) (exampleJoint (-5) 5) 5 5 (fin 3) (fin 2)
      (by decide) (by decide) rfl rfl
      (by simp [exampleJoint, Double.ofNat_def]) (by simp [exampleJoint, Double.ofNat_def])
      (by norm_num) (pair_raw 3 2).1 (pair_raw 3 2).2
  obtain ⟨_, h0, h1⟩ := hnoop 3 2 rfl rfl (by norm_num [abs_of_pos])
  exact ⟨c2, hu, h0, h1⟩

/-- Counterexample to C8 as stated.  (1) Overlapping pairs `(0, 1)`, `(1, 2)`,
limits `4` everywhere, raw `(12, 4, 62)`: `update` sends `(6, 1/4)` to the pair
`(0, 1)`; joint `0` is scaled by `1/2` and joint `1` by `1/16`, so no common
scalar exists and the ratio is not preserved.  (2) A sole pair with limits
`(5, 5)` whose joint `0` reports the velocity `-inf`: the raw commands are
`(+inf, 1)`, the scalar is `10 / inf = 0`, and `update` sends `(NaN, 0)`.
(3) A sole pair with limits `(5, 5)` and raw `(1, 11)` in binary64: budget `10`
and divisor `12` are exact, the scalar `s` is a value nearest to `10 / 12`, and
the sent values `lift2` nearest to `1 * s` and `roll2` nearest to `11 * s` have
`lift2 * roll` different from `roll2 * lift`. -/
theorem pair_scalar_counterexample :
    (WellFormed overlapController ∧
      overlapController.paired_constraints = [0, 1, 1, 2] ∧
      rawCommand overlapController zeroSad oneSecond 0 = some (fin 12) ∧
      rawCommand overlapController zeroSad oneSecond 1 = some (fin 4) ∧
      ∃ c2, update overlapController zeroSad oneSecond = some c2 ∧
        sentCommand c2 0 = some (fin 6) ∧ sentCommand c2 1 = some (fin (1 / 4)) ∧
        (6 : ℚ) * 4 ≠ (1 / 4) * 12 ∧
        ¬ ∃ s : ℚ, (6 : ℚ) = 12 * s ∧ (1 / 4 : ℚ) = 4 * s) ∧
    (WellFormed infiniteVelocityController ∧
      infiniteVelocityController.paired_constraints = [0, 1] ∧
      rawCommand infiniteVelocityController zeroSad oneSecond 0 = some pinf ∧
      rawCommand infiniteVelocityController zeroSad oneSecond 1 = some (fin 1) ∧
      scalar pinf (fin 1) (fin 5 + fin 5) = fin 0 ∧
      ∃ c2, update infiniteVelocityController zeroSad oneSecond = some c2 ∧
        sentCommand c2 0 = some nan ∧ sentCommand c2 1 = some (fin 0)) ∧
    (∀ s l2 r2 : ℚ, IsNearestBinary64 (10 / 12) s → IsNearestBinary64 (1 * s) l2 →
      IsNearestBinary64 (11 * s) r2 → l2 * 11 ≠ r2 * 1) := by
  obtain ⟨c2, hu, h0, h1⟩ := overlap_sent
  obtain ⟨c4, hu4, h40, h41⟩ := infiniteVelocity_sent
  refine ⟨⟨by decide, rfl, overlap_raw.1, overlap_raw.2, c2, hu, h0, h1, by norm_num, ?_⟩,
    ⟨by decide, rfl, infiniteVelocity_raw.1, infiniteVelocity_raw.2, ?_, c4, hu4, h40, h41⟩,
    rounded_example_ratio⟩
  · rintro ⟨s, hs1, hs2⟩
    linarith
  · simp [scalar, Double.zero_def, Double.add_def, Double.add, Double.div_def, Double.div,
      Double.lt_def, Double.lt, Double.le_def, Double.le]

/-- C2 (amended). For a joint `i` outside the pair list with `min_torque <= max_torque`
(on a well-formed configuration): `update` returns and the torque it sends to
joint `i` is `std::min(std::max(raw, min_torque), max_torque)` for the raw
`computeCommand` output `raw`, untouched by the pair loop; it lies in
`[min_torque, max_torque]` as soon as `raw` is a number. -/
theorem unpaired_clamp (c : InverseDynamicsController) (sad : Double → Double → Double)
    (period : Duration) (i : Nat) (j : JointPD) (hwf : WellFormed c)
    (hj : c.joint_vector[i]? = some j) (hi : (i : Int) ∉ c.paired_constraints)
    (hlim : j.min_torque ≤ j.max_torque) :
    ∃ c2 raw sent, update c sad period = some c2 ∧ rawCommand c sad period i = some raw ∧
      sentCommand c2 i = some sent ∧
      sent = stdMin (stdMax raw j.min_torque) j.max_torque ∧
      (raw.isnan = false → j.min_torque ≤ sent ∧ sent ≤ j.max_torque) := by
  obtain ⟨c2, raw, hu, hraw, hs⟩ := update_unpaired c sad period hwf i j hj hi
  exact ⟨c2, raw, _, hu, hraw, hs, rfl, fun hx => clamp_bounds raw _ _ hx hlim⟩

/-- Witness of C2: with limits `[-5, 5]`, the raw command `7` gives `5` and the
raw command `-9` gives `-5`. -/
theorem unpaired_clamp_witness :
    (∃ c2, update (singleController (fin 7)) zeroSad oneSecond = some c2 ∧
      sentCommand c2 0 = some (fin 5)) ∧
    (∃ c2, update (singleController (fin (-9))) zeroSad oneSecond = some c2 ∧
      sentCommand c2 0 = some (fin (-5))) := by
  have hraw : ∀ t : ℚ,
      rawCommand (singleController (fin t)) zeroSad oneSecond 0 = some (fin t) := by
    intro t
    simp [singleController, rawCommand, computeCommand, zeroSad, oneSecond, exampleJoint, at?,
      Duration.zero, isnan, isinf, Double.zero_def, Double.one_def]
  have hlim : (exampleJoint (-5) 5).min_torque ≤ (exampleJoint (-5) 5).max_torque := by
    simp [exampleJoint, Double.ofNat_def]
  constructor
  · obtain ⟨c2, raw, sent, hu, hr, hs, he, _⟩ :=
      unpaired_clamp (singleController (fin 7)) zeroSad oneSecond 0 (exampleJoint (-5) 5)
        (by decide) rfl (by simp [singleController]) hlim
    rw [hraw 7] at hr
    cases hr
    refine ⟨c2, hu, hs.trans ?_⟩
    rw [he]
    simp [exampleJoint, stdMin, stdMax, Double.ofNat_def]
    norm_num
  · obtain ⟨c2, raw, sent, hu, hr, hs, he, _⟩ :=
      unpaired_clamp (singleController (fin (-9))) zeroSad oneSecond 0 (exampleJoint (-5) 5)
        (by decide) rfl (by simp [singleController]) hlim
    rw [hraw (-9)] at hr
    cases hr
    refine ⟨c2, hu, hs.trans ?_⟩
    rw [he]
    simp [exampleJoint, stdMin, stdMax, Double.ofNat_def]
    norm_num

/-- Counterexample to C2 as stated: one unpaired joint with limits `[-5, 5]`
that reports the velocity `NaN`.  The error `0` passes the guard of
`computeCommand`, the raw command is `NaN`, `std::min(std::max(NaN, -5), 5)`
is `NaN`, and `update` sends `NaN`, which is not in `[-5, 5]`. -/
theorem unpaired_clamp_nan_counterexample :
    WellFormed nanVelocityController ∧
    nanVelocityController.paired_constraints = [] ∧
    ((nanVelocityController.joint_vector[0]?).map fun j => (j.min_torque, j.max_torque))
      = some (fin (-5), fin 5) ∧
    fin (-5) ≤ fin 5 ∧
    rawCommand nanVelocityController zeroSad oneSecond 0 = some nan ∧
    stdMin (stdMax nan (fin (-5))) (fin 5) = nan ∧
    ¬ (fin (-5) ≤ nan ∧ nan ≤ fin 5) ∧
    ∃ c2, update nanVelocityController zeroSad oneSecond = some c2 ∧
      sentCommand c2 0 = some nan := by
  have hraw : rawCommand nanVelocityController zeroSad oneSecond 0 = some nan := by
    simp [nanVelocityController, rawCommand, computeCommand, zeroSad, oneSecond, exampleJoint,
      exampleJointV, at?, Duration.zero, isnan, isinf, Double.zero_def, Double.one_def,
      Double.ofNat_def, Double.neg_def, Double.neg, Double.mul_def, Double.mul,
      Double.add_def, Double.add]
  have hcmd : updateCommands nanVelocityController zeroSad oneSecond = some [nan] := by
    simp [updateCommands, nanVelocityController, commandsLoop, List.range, List.range.loop,
      commandedEffort, rawCommand, computeCommand, zeroSad, oneSecond, exampleJoint,
      exampleJointV, pairLoop, at?, Duration.zero, isnan, isinf, Double.zero_def,
      Double.one_def, Double.ofNat_def, Double.neg_def, Double.neg, Double.mul_def,
      Double.mul, Double.add_def, Double.add, stdMin, stdMax, Double.lt_def, Double.lt]
  obtain ⟨c2, hu, hs⟩ := update_of_updateCommands nanVelocityController zeroSad oneSecond _
    hcmd (by rfl)
  refine ⟨by decide, rfl, ?_, ?_, hraw, ?_, ?_, c2, hu, by rw [hs]; rfl⟩
  · simp [nanVelocityController, exampleJointV, exampleJoint, Double.ofNat_def]
  · rw [Double.fin_le_fin]
    norm_num
  · simp [stdMin, stdMax, Double.lt_def, Double.lt]
  · simp [Double.le_def, Double.le]

/-- C3. Whenever the time step is exactly zero or the error is `NaN` or
infinite, `computeCommand` returns `0`, for every controller state (gains,
compensation torques, zero-gravity flag), joint index and velocity. -/
theorem computeCommand_failsafe (c : InverseDynamicsController) (error : Double)
    (dt : Duration) (index : Int) (vel : Double)
    (h : dt = Duration.zero ∨ error.isnan = true ∨ error.isinf = true) :
    computeCommand c error dt index vel = some 0 := by
  unfold computeCommand
  rw [if_pos h]

/-- Witness of C3: a zero time step, a `NaN` error and an infinite error. -/
theorem computeCommand_failsafe_witness :
    computeCommand scenarioController (fin 1) Duration.zero 0 (fin 1) = some 0 ∧
    computeCommand scenarioController nan oneSecond 0 (fin 1) = some 0 ∧
    computeCommand scenarioController ninf oneSecond 0 (fin 1) = some 0 :=
  ⟨computeCommand_failsafe scenarioController (fin 1) Duration.zero 0 (fin 1) (Or.inl rfl),
   computeCommand_failsafe scenarioController nan oneSecond 0 (fin 1) (Or.inr (Or.inl rfl)),
   computeCommand_failsafe scenarioController ninf oneSecond 0 (fin 1) (Or.inr (Or.inr rfl))⟩

/-- C4. With a non-zero time step, a finite error and the zero-gravity flag
clear, `computeCommand` returns
`p_gain * error + d_gain * (-velocity) + compensation_torque * compensation_gain`
for the joint `j` and the compensation torque `t` at the index. -/
theorem computeCommand_pd_law (c : InverseDynamicsController) (e : ℚ) (dt : Duration)
    (index : Int) (vel : Double) (j : JointPD) (t : Double)
    (hdt : dt ≠ Duration.zero) (hz : c.zero_g_mode = false)
    (hj : at? c.joint_vector index = some j) (ht : at? c.id_torques index = some t) :
    computeCommand c (fin e) dt index vel
      = some (j.p_gain * fin e + j.d_gain * -vel + t * j.id_gain) := by
  unfold computeCommand
  rw [if_neg (by simp [hdt, isnan, isinf])]
  simp only [hj, ht, hz]
  rfl

/-- Witness of C4: the end-to-end scenario (`p = 2`, `d = 0.1`, gain `1`, error
`-0.1`, velocity `0.5`, compensation torque `0.2`) gives `-0.05`. -/
theorem computeCommand_pd_law_witness :
    computeCommand scenarioController (fin (-0.1)) oneSecond 0 (fin 0.5) = some (fin (-0.05)) :=
  (computeCommand_pd_law scenarioController (-0.1) oneSecond 0 (fin 0.5)
    (exampleJoint (-5) 5) (fin 0.2) (by decide) rfl rfl rfl).trans (by
      simp [exampleJoint, Double.one_def, Double.ofNat_def]
      norm_num)

/-- C5 (amended). With the zero-gravity flag set, a non-zero time step and
errors that are neither `NaN` nor infinite, two calls of `computeCommand` at the
same index that agree on the compensation torque `t` and the compensation gain
both return `t * id_gain`, whatever the `p_gain`, `d_gain`, error and velocity
of each call. -/
theorem zero_g_independence (c1 c2 : InverseDynamicsController) (dt : Duration)
    (index : Int) (e1 e2 v1 v2 : Double) (j1 j2 : JointPD) (t : Double)
    (hz1 : c1.zero_g_mode = true) (hz2 : c2.zero_g_mode = true) (hdt : dt ≠ Duration.zero)
    (he1 : e1.isnan = false ∧ e1.isinf = false) (he2 : e2.isnan = false ∧ e2.isinf = false)
    (hj1 : at? c1.joint_vector index = some j1) (hj2 : at? c2.joint_vector index = some j2)
    (ht1 : at? c1.id_torques index = some t) (ht2 : at? c2.id_torques index = some t)
    (hg : j1.id_gain = j2.id_gain) :
    computeCommand c1 e1 dt index v1 = some (t * j1.id_gain) ∧
    computeCommand c2 e2 dt index v2 = some (t * j1.id_gain) := by
  unfold computeCommand
  rw [if_neg (by simp [hdt, he1.1, he1.2]), if_neg (by simp [hdt, he2.1, he2.2])]
  simp only [hj1, hj2, ht1, ht2, hz1, hz2, hg, if_true, and_self]

/-- Witness of C5: two calls on the one-joint zero-gravity controller with
compensation torque `3`, with different errors and velocities. -/
theorem zero_g_independence_witness :
    computeCommand (singleController 3) (fin 1) oneSecond 0 (fin 2)
      = some (fin 3 * (exampleJoint (-5) 5).id_gain) ∧
    computeCommand (singleController 3) (fin (-4)) oneSecond 0 pinf
      = some (fin 3 * (exampleJoint (-5) 5).id_gain) :=
  zero_g_independence (singleController 3) (singleController 3) oneSecond 0
    (fin 1) (fin (-4)) (fin 2) pinf (exampleJoint (-5) 5) (exampleJoint (-5) 5) (fin 3)
    rfl rfl (by decide) ⟨rfl, rfl⟩ ⟨rfl, rfl⟩ rfl rfl
    (by simp [singleController, at?, Double.ofNat_def])
    (by simp [singleController, at?, Double.ofNat_def]) rfl

/-- Counterexample to C5 as stated: in zero-gravity mode with compensation
torque `1` and gain `1` (product `1`), a zero time step gives `0`; and for the
time step of one second, the error `NaN` gives `0` while the error `0` gives
`1`. -/
theorem zero_g_failsafe_counterexample :
    (singleController 1).zero_g_mode = true ∧
    at? (singleController 1).id_torques 0 = some (fin 1) ∧
    ((at? (singleController 1).joint_vector 0).map fun j => j.id_gain) = some (fin 1) ∧
    computeCommand (singleController 1) (fin 0) Duration.zero 0 (fin 0) = some (fin 0) ∧
    computeCommand (singleController 1) nan oneSecond 0 (fin 0) = some (fin 0) ∧
    computeCommand (singleController 1) (fin 0) oneSecond 0 (fin 0) = some (fin 1) ∧
    fin 0 ≠ fin 1 * fin 1 := by
  refine ⟨rfl, ?_, ?_, ?_, ?_, ?_, ?_⟩
  · simp [singleController, at?, Double.one_def]
  · simp [singleController, at?, exampleJoint, Double.one_def]
  · simp [computeCommand, Duration.zero, Double.zero_def]
  · simp [computeCommand, isnan, Double.zero_def]
  · simp [computeCommand, singleController, exampleJoint, oneSecond, Duration.zero, at?, isnan,
      isinf, Double.one_def]
  · simp

/-- C6. For a command message of real target angles no longer than the joint
vector, `setCommand` returns, and every joint `i` the message covers whose
limits satisfy `min_angle <= max_angle` keeps its limits and ends with
`min_angle <= cmd <= max_angle`. -/
theorem setCommand_within_limits (c : InverseDynamicsController) (xs : List ℚ)
    (hlen : xs.length ≤ c.joint_vector.length) :
    ∃ c2, setCommand c (xs.map fin) = some c2 ∧
      ∀ (i : Nat) (j : JointPD), i < xs.length → c.joint_vector[i]? = some j →
        j.min_angle ≤ j.max_angle →
        ∃ j2, c2.joint_vector[i]? = some j2 ∧
          j2.min_angle = j.min_angle ∧ j2.max_angle = j.max_angle ∧
          j2.min_angle ≤ j2.cmd ∧ j2.cmd ≤ j2.max_angle := by
  obtain ⟨jv2, hloop, hspec⟩ := setCommandLoop_spec c.joint_vector (xs.map fin)
    (by simpa using hlen)
  have hset : setCommand c (xs.map fin) = some { c with joint_vector := jv2 } := by
    simp only [setCommand, hloop]
  refine ⟨_, hset, ?_⟩
  intro i j hi hj hlim
  have hx : (xs.map fin)[i]? = some (fin xs[i]) := by
    rw [List.getElem?_map, List.getElem?_eq_getElem hi]
    rfl
  obtain ⟨w, hw, _, _⟩ := wrapAngle_fin xs[i]
  have hb := clamp_bounds (wrapAngle (fin xs[i])) j.min_angle j.max_angle
    (by rw [hw]; rfl) hlim
  exact ⟨_, hspec i j _ hj hx, rfl, rfl, hb.1, hb.2⟩

/-- Witness of C6: the target `10` rad sent to the one joint of the scenario,
whose angle limits are `[-3, 3]`. -/
theorem setCommand_within_limits_witness :
    ∃ c2 j2, setCommand scenarioController [fin 10] = some c2 ∧
      c2.joint_vector[0]? = some j2 ∧
      j2.min_angle = fin (-3) ∧ j2.max_angle = fin 3 ∧
      j2.min_angle ≤ j2.cmd ∧ j2.cmd ≤ j2.max_angle := by
  obtain ⟨c2, hs, h⟩ := setCommand_within_limits scenarioController [10] (by decide)
  obtain ⟨j2, hj2, hmin, hmax, hlo, hhi⟩ := h 0 (exampleJoint (-5) 5) (by decide) rfl
    (by simp [exampleJoint, Double.ofNat_def])
  refine ⟨c2, j2, hs, hj2, ?_, ?_, hlo, hhi⟩
  · rw [hmin]
    simp [exampleJoint, Double.ofNat_def]
  · rw [hmax]
    simp [exampleJoint, Double.ofNat_def]

/-- C7 (code defect). At the target angle `3.141592653589793`, the double next
to `pi`, the wrap-around lines of `setCommand` (shift by `3.14159265359`,
`fmod`, shift back by `3.1415926535`) return a finite value above `pi`, within
`1e-10` of it: the value is outside `(-pi, pi]` and is not the input. -/
theorem wrapAngle_exceeds_pi :
    ∃ w : ℚ, wrapAngle (fin 3.141592653589793) = fin w ∧
      Real.pi < (w : ℝ) ∧ (w : ℝ) < Real.pi + 1 / 10 ^ 10 ∧ 3.141592653589793 < w := by
  refine ⟨3.141592653679793, ?_, ?_, ?_, ?_⟩
  · simp [wrapAngle, fmod, trunc, Double.zero_def]
    norm_num
  · refine lt_trans Real.pi_lt_d20 ?_
    push_cast
    norm_num
  · have h := Real.pi_gt_d20
    push_cast
    norm_num at h ⊢
    linarith
  · norm_num

/-- C9 (code defect). On an environment where every lookup succeeds and the pair
list is the odd-length `[0]`, `init` returns true and keeps the list; the next
`update` then reads past the end of the list. -/
theorem init_accepts_odd_pair_list :
    oddPairInput.paired_constraints = some [0] ∧
    ∃ c, init oddPairInput = some c ∧ c.paired_constraints = [0] ∧
      c.paired_constraints.length % 2 = 1 ∧
      update c zeroSad oneSecond = none :=
  ⟨rfl, _, rfl, rfl, rfl, update_odd_none _ zeroSad oneSecond rfl⟩

/-- C10 (amended). For a pair whose budget is non-negative, whenever the pair
loop takes a rescaling branch its divisor `d` is positive, hence non-zero, and
the scalar is `budget / d`. -/
theorem divisor_nonzero (lift roll max_effort d : Double) (hB : (0 : Double) ≤ max_effort)
    (hd : scalarDivisor lift roll max_effort = some d) :
    (0 : Double) < d ∧ d ≠ 0 ∧ scalar lift roll max_effort = max_effort / d := by
  have hgt := scalarDivisor_gt lift roll max_effort d hd
  have hpos := Double.pos_of_le_of_lt max_effort d hB hgt
  refine ⟨hpos.1, hpos.2, ?_⟩
  rw [scalar_eq_div, hd]

/-- Witness of C10: budget `10` and raw `(8, 4)` take the first branch, with
divisor `12`. -/
theorem divisor_nonzero_witness :
    (0 : Double) < fin 12 ∧ fin 12 ≠ (0 : Double) ∧
      scalar (fin 8) (fin 4) (fin 10) = fin 10 / fin 12 :=
  divisor_nonzero (fin 8) (fin 4) (fin 10) (fin 12)
    (by rw [Double.zero_def, Double.fin_le_fin]; norm_num)
    (by
      simp [scalarDivisor, Double.zero_def]
      norm_num)

/-- Counterexample to C10 as stated: two paired joints with `max_torque = -1`
have budget `-2`; on the raw commands `(0, 0)` the first branch is taken with
divisor `0`, and `update` computes the commands `(NaN, NaN)`. -/
theorem divisor_zero_counterexample :
    WellFormed negativeBudgetController ∧
    rawCommand negativeBudgetController zeroSad oneSecond 0 = some (fin 0) ∧
    rawCommand negativeBudgetController zeroSad oneSecond 1 = some (fin 0) ∧
    scalarDivisor (fin 0) (fin 0) (fin (-1) + fin (-1)) = some (fin 0) ∧
    updateCommands negativeBudgetController zeroSad oneSecond = some [nan, nan] := by
  refine ⟨by decide, ?_, ?_, ?_, ?_⟩
  · simp [negativeBudgetController, rawCommand, computeCommand, zeroSad, oneSecond,
      exampleJoint, at?, Duration.zero, isnan, isinf, Double.zero_def, Double.one_def]
  · simp [negativeBudgetController, rawCommand, computeCommand, zeroSad, oneSecond,
      exampleJoint, at?, Duration.zero, isnan, isinf, Double.zero_def, Double.one_def]
  · simp [scalarDivisor, Double.zero_def]
  · simp [updateCommands, negativeBudgetController, commandsLoop, List.range, List.range.loop,
      commandedEffort, rawCommand, computeCommand, zeroSad, oneSecond, exampleJoint, pairLoop,
      at?, scalar, Duration.zero, isnan, isinf, Double.zero_def, Double.one_def,
      Double.ofNat_def, Double.fin_div_fin_eq, infOfSign, Double.mul_def, Double.mul]

end koko_controllers
